import Mathlib

/-!
Verification of the ArtOfVM register+stack virtual machine and its assembler
(`src/vm.rs`, `src/assembler.rs`), via a shallow embedding in Lean.

Modelling conventions:
* Machine bytes are `Nat`s (< 256 where the source guarantees it).
* Unsigned payloads (`u8`/`u16`/`u32`/`u64`) are `Nat`s, signed payloads
  (`i8`/`i16`/`i32`/`i64`) are `Int`s; well-formedness (`wfImmediate`)
  records the range each Rust machine type guarantees.
* `f32`/`f64` payloads are their IEEE-754 bit patterns (a `Nat`); the byte
  codec moves bit patterns verbatim (`to_le_bytes`/`from_le_bytes`), so this
  is exact for the wire format.  Float arithmetic, comparison, parsing and
  negation are left uninterpreted: they are fields of a `FloatOps` record
  that every definition takes as a parameter.
* Fallible code (Rust panics, out-of-bounds indexing, `unwrap`) is modelled
  by `Option`, with `none` for the panic.
* Integer `+ - *` overflow wraps (two's complement), following the release
  semantics the spec fixes in its design notes ("the reference uses native
  two's-complement wrap").  `/` keeps the division-by-zero and
  MIN / -1 panics, which Rust checks in every build profile.
-/

/-- The tagged immediate value, `Immediate` in `src/vm.rs`.  Variant order is
the Rust declaration order (it drives the derived comparison). -/
inductive Immediate where
  | None : Immediate
  | U8 : Nat → Immediate
  | I8 : Int → Immediate
  | U16 : Nat → Immediate
  | I16 : Int → Immediate
  | U32 : Nat → Immediate
  | I32 : Int → Immediate
  | U64 : Nat → Immediate
  | I64 : Int → Immediate
  | F32 : Nat → Immediate
  | F64 : Nat → Immediate
  deriving DecidableEq, Repr

/-- Range invariants of the Rust payload types (`u8` holds a value `< 2^8`,
`i8` a value in `[-2^7, 2^7)`, a float bit pattern fits its width). -/
def wfImmediate : Immediate → Prop
  | .None => True
  | .U8 n => n < 2 ^ 8
  | .I8 i => -(2 ^ 7) ≤ i ∧ i < 2 ^ 7
  | .U16 n => n < 2 ^ 16
  | .I16 i => -(2 ^ 15) ≤ i ∧ i < 2 ^ 15
  | .U32 n => n < 2 ^ 32
  | .I32 i => -(2 ^ 31) ≤ i ∧ i < 2 ^ 31
  | .U64 n => n < 2 ^ 64
  | .I64 i => -(2 ^ 63) ≤ i ∧ i < 2 ^ 63
  | .F32 b => b < 2 ^ 32
  | .F64 b => b < 2 ^ 64

/-- Little-endian byte decomposition, as produced by Rust `to_le_bytes`. -/
def leBytes : Nat → Nat → List Nat
  | 0, _ => []
  | k + 1, n => n % 256 :: leBytes k (n / 256)

/-- Little-endian byte recomposition, as computed by Rust `from_le_bytes`. -/
def combineLe : List Nat → Nat
  | [] => 0
  | b :: bs => b + 256 * combineLe bs

/-- Reinterpret an unsigned `w`-bit value as a signed one (Rust `as i8` /
`as i16` / ... on the little-endian recomposition). -/
def toSigned (w : Nat) (n : Nat) : Int :=
  if n < 2 ^ (w - 1) then (n : Int) else (n : Int) - 2 ^ w

/-- Two's-complement byte image of a signed value (Rust `as u8`, or
`to_le_bytes` of a signed integer, seen as a natural number). -/
def signedBits (w : Nat) (i : Int) : Nat := (i % 2 ^ w).toNat

/-- The byte sequence `psh_encoded_immed` (src/assembler.rs:470) appends for
one immediate: one tag byte, then the little-endian payload.  The `None`
variant is emitted with tag byte 255 and no payload. -/
def encodeImmed : Immediate → List Nat
  | .None => [255]
  | .U8 n => [0, n]
  | .I8 i => [1, signedBits 8 i]
  | .U16 n => 2 :: leBytes 2 n
  | .I16 i => 3 :: leBytes 2 (signedBits 16 i)
  | .U32 n => 4 :: leBytes 4 n
  | .I32 i => 5 :: leBytes 4 (signedBits 32 i)
  | .U64 n => 6 :: leBytes 8 n
  | .I64 i => 7 :: leBytes 8 (signedBits 64 i)
  | .F32 b => 8 :: leBytes 4 b
  | .F64 b => 9 :: leBytes 8 b

/-- Read `k` consecutive bytes starting at `p` (the slice
`instr_mem[p..][..k]`; a short slice is a Rust panic, hence `none`). -/
def readBytes (mem : List Nat) (p : Nat) : Nat → Option (List Nat)
  | 0 => some []
  | k + 1 => do
    let b ← mem.get? p
    let rest ← readBytes mem (p + 1) k
    pure (b :: rest)

/-- `decode_immed` (src/vm.rs:94).  On entry the cursor `p0` sits on the byte
before the tag (the source first does `instr_ptr += 2` and then reads the tag
at `instr_ptr - 1`); the returned cursor is the final `instr_ptr`, which the
source leaves on the last payload byte for known tags and one past the tag
for unknown ones. -/
def decodeImmed (mem : List Nat) (p0 : Nat) : Option (Immediate × Nat) := do
  let p := p0 + 2
  let tag ← mem.get? (p - 1)
  match tag with
  | 0 => do let b ← mem.get? p; pure (.U8 b, p)
  | 1 => do let b ← mem.get? p; pure (.I8 (toSigned 8 b), p)
  | 2 => do let bs ← readBytes mem p 2; pure (.U16 (combineLe bs), p + 1)
  | 3 => do let bs ← readBytes mem p 2; pure (.I16 (toSigned 16 (combineLe bs)), p + 1)
  | 4 => do let bs ← readBytes mem p 4; pure (.U32 (combineLe bs), p + 3)
  | 5 => do let bs ← readBytes mem p 4; pure (.I32 (toSigned 32 (combineLe bs)), p + 3)
  | 6 => do let bs ← readBytes mem p 8; pure (.U64 (combineLe bs), p + 7)
  | 7 => do let bs ← readBytes mem p 8; pure (.I64 (toSigned 64 (combineLe bs)), p + 7)
  | 8 => do let bs ← readBytes mem p 4; pure (.F32 (combineLe bs), p + 3)
  | 9 => do let bs ← readBytes mem p 8; pure (.F64 (combineLe bs), p + 7)
  | _ => pure (.None, p)

theorem leBytes_length (k n : Nat) : (leBytes k n).length = k := by
  induction k generalizing n with
  | zero => rfl
  | succ k ih => simp [leBytes, ih]

theorem combineLe_leBytes (k n : Nat) : combineLe (leBytes k n) = n % 2 ^ (8 * k) := by
  induction k generalizing n with
  | zero => simp [leBytes, combineLe, Nat.mod_one]
  | succ k ih =>
    have h : 2 ^ (8 * (k + 1)) = 256 * 2 ^ (8 * k) := by ring
    rw [leBytes, combineLe, ih, h]
    conv_rhs => rw [← Nat.div_add_mod (n % (256 * 2 ^ (8 * k))) 256]
    rw [Nat.mod_mul_right_div_self, Nat.mod_mod_of_dvd n ⟨2 ^ (8 * k), rfl⟩]
    ring

theorem readBytes_exact (pre bs : List Nat) :
    readBytes (pre ++ bs) pre.length bs.length = some bs := by
  induction bs generalizing pre with
  | nil => rfl
  | cons b rest ih =>
    have h1 : (pre ++ b :: rest).get? pre.length = some b := by
      rw [List.get?_eq_getElem?, List.getElem?_append_right (Nat.le_refl _)]
      simp
    have h2 : readBytes (pre ++ b :: rest) (pre.length + 1) rest.length = some rest := by
      have := ih (pre ++ [b])
      simpa using this
    simp [readBytes, h1, h2, List.getElem_append_right]

theorem signedBits_lt (w : Nat) (i : Int) : signedBits w i < 2 ^ w := by
  have h : (0 : Int) < 2 ^ w := by positivity
  have h1 := Int.emod_lt_of_pos i h
  have h0 := Int.emod_nonneg i (ne_of_gt h)
  rw [signedBits, ← Nat.cast_lt (α := Int), Int.toNat_of_nonneg h0]
  push_cast
  exact h1

theorem toSigned_signedBits_8 (i : Int) (h1 : -(2 ^ 7) ≤ i) (h2 : i < 2 ^ 7) :
    toSigned 8 (signedBits 8 i) = i := by
  simp only [toSigned, signedBits]
  norm_num at h1 h2 ⊢
  split <;> omega

theorem toSigned_signedBits_16 (i : Int) (h1 : -(2 ^ 15) ≤ i) (h2 : i < 2 ^ 15) :
    toSigned 16 (signedBits 16 i) = i := by
  simp only [toSigned, signedBits]
  norm_num at h1 h2 ⊢
  split <;> omega

theorem toSigned_signedBits_32 (i : Int) (h1 : -(2 ^ 31) ≤ i) (h2 : i < 2 ^ 31) :
    toSigned 32 (signedBits 32 i) = i := by
  simp only [toSigned, signedBits]
  norm_num at h1 h2 ⊢
  split <;> omega

theorem toSigned_signedBits_64 (i : Int) (h1 : -(2 ^ 63) ≤ i) (h2 : i < 2 ^ 63) :
    toSigned 64 (signedBits 64 i) = i := by
  simp only [toSigned, signedBits]
  norm_num at h1 h2 ⊢
  split <;> omega

theorem readBytes_cons2 (b0 t : Nat) (bs : List Nat) :
    readBytes (b0 :: t :: bs) 2 bs.length = some bs := by
  simpa using readBytes_exact [b0, t] bs

/-- C1: decoding the byte sequence the assembler's immediate encoder emits
(one tag byte after any preceding byte `b0`, then the little-endian payload)
returns the original immediate.  Float payloads are IEEE bit patterns here,
so the restriction to non-NaN payloads in the claim is subsumed: the
round-trip is exact at the bit level for every payload. -/
theorem decode_encode_roundtrip (b0 : Nat) (v : Immediate) (h : wfImmediate v) :
    (decodeImmed (b0 :: encodeImmed v) 0).map Prod.fst = some v := by
  cases v with
  | None => simp [decodeImmed, encodeImmed]
  | U8 n => simp [decodeImmed, encodeImmed]
  | I8 i =>
    have := toSigned_signedBits_8 i h.1 h.2
    simp [decodeImmed, encodeImmed, this]
  | U16 n =>
    have hr := readBytes_cons2 b0 2 (leBytes 2 n)
    rw [leBytes_length] at hr
    norm_num [wfImmediate] at h
    simp [decodeImmed, encodeImmed, hr, combineLe_leBytes, Nat.mod_eq_of_lt h]
  | I16 i =>
    have hr := readBytes_cons2 b0 3 (leBytes 2 (signedBits 16 i))
    rw [leBytes_length] at hr
    have hlt : signedBits 16 i < 65536 := by simpa using signedBits_lt 16 i
    simp [decodeImmed, encodeImmed, hr, combineLe_leBytes, Nat.mod_eq_of_lt hlt,
      toSigned_signedBits_16 i h.1 h.2]
  | U32 n =>
    have hr := readBytes_cons2 b0 4 (leBytes 4 n)
    rw [leBytes_length] at hr
    norm_num [wfImmediate] at h
    simp [decodeImmed, encodeImmed, hr, combineLe_leBytes, Nat.mod_eq_of_lt h]
  | I32 i =>
    have hr := readBytes_cons2 b0 5 (leBytes 4 (signedBits 32 i))
    rw [leBytes_length] at hr
    have hlt : signedBits 32 i < 4294967296 := by simpa using signedBits_lt 32 i
    simp [decodeImmed, encodeImmed, hr, combineLe_leBytes, Nat.mod_eq_of_lt hlt,
      toSigned_signedBits_32 i h.1 h.2]
  | U64 n =>
    have hr := readBytes_cons2 b0 6 (leBytes 8 n)
    rw [leBytes_length] at hr
    norm_num [wfImmediate] at h
    simp [decodeImmed, encodeImmed, hr, combineLe_leBytes, Nat.mod_eq_of_lt h]
  | I64 i =>
    have hr := readBytes_cons2 b0 7 (leBytes 8 (signedBits 64 i))
    rw [leBytes_length] at hr
    have hlt : signedBits 64 i < 18446744073709551616 := by simpa using signedBits_lt 64 i
    simp [decodeImmed, encodeImmed, hr, combineLe_leBytes, Nat.mod_eq_of_lt hlt,
      toSigned_signedBits_64 i h.1 h.2]
  | F32 b =>
    have hr := readBytes_cons2 b0 8 (leBytes 4 b)
    rw [leBytes_length] at hr
    norm_num [wfImmediate] at h
    simp [decodeImmed, encodeImmed, hr, combineLe_leBytes, Nat.mod_eq_of_lt h]
  | F64 b =>
    have hr := readBytes_cons2 b0 9 (leBytes 8 b)
    rw [leBytes_length] at hr
    norm_num [wfImmediate] at h
    simp [decodeImmed, encodeImmed, hr, combineLe_leBytes, Nat.mod_eq_of_lt h]

/-- Witness for C1 at the concrete immediate `I16 (-300)`. -/
theorem decode_encode_roundtrip_witness :
    (decodeImmed (0 :: encodeImmed (.I16 (-300))) 0).map Prod.fst = some (.I16 (-300)) :=
  decode_encode_roundtrip 0 (.I16 (-300)) (by constructor <;> decide)

/-- C5: an immediate whose tag byte is outside `0..9` decodes to the `None`
immediate without reading any payload byte; the cursor ends at `p0 + 2`,
i.e. one position past the tag byte at `p0 + 1` (the decoder enters with the
cursor on the byte before the tag, mirroring `decode_immed`). -/
theorem decode_unknown_tag (mem : List Nat) (p0 tag : Nat)
    (htag : mem.get? (p0 + 1) = some tag) (h10 : 10 ≤ tag) :
    decodeImmed mem p0 = some (.None, p0 + 2) := by
  have hidx : p0 + 2 - 1 = p0 + 1 := by omega
  rw [List.get?_eq_getElem?] at htag
  rcases tag with _|_|_|_|_|_|_|_|_|_|k
  iterate 10 exact absurd h10 (by omega)
  simp [decodeImmed, hidx, htag]

/-- Witness for C5: tag byte 255 at position 1 decodes to `None` with the
cursor at position 2. -/
theorem decode_unknown_tag_witness :
    decodeImmed [0, 255] 0 = some (.None, 2) :=
  decode_unknown_tag [0, 255] 0 255 rfl (by omega)

/-- Uninterpreted IEEE-754 operations on bit patterns.  The VM and the
assembler are parametric in these: no claim depends on the numeric value of
a float computation, only on which variant carries it. -/
structure FloatOps where
  f32Add : Nat → Nat → Nat
  f32Sub : Nat → Nat → Nat
  f32Mul : Nat → Nat → Nat
  f32Div : Nat → Nat → Nat
  f64Add : Nat → Nat → Nat
  f64Sub : Nat → Nat → Nat
  f64Mul : Nat → Nat → Nat
  f64Div : Nat → Nat → Nat
  f32Eq : Nat → Nat → Bool
  f32Gt : Nat → Nat → Bool
  f64Eq : Nat → Nat → Bool
  f64Gt : Nat → Nat → Bool
  parseF32 : String → Option Nat
  parseF64 : String → Option Nat
  negF32 : Nat → Nat
  negF64 : Nat → Nat

/-- A trivial instantiation of `FloatOps`, used by concrete witnesses (none
of which touch float payloads). -/
def trivFloatOps : FloatOps where
  f32Add := fun a _ => a
  f32Sub := fun a _ => a
  f32Mul := fun a _ => a
  f32Div := fun a _ => a
  f64Add := fun a _ => a
  f64Sub := fun a _ => a
  f64Mul := fun a _ => a
  f64Div := fun a _ => a
  f32Eq := fun _ _ => false
  f32Gt := fun _ _ => false
  f64Eq := fun _ _ => false
  f64Gt := fun _ _ => false
  parseF32 := fun _ => Option.none
  parseF64 := fun _ => Option.none
  negF32 := id
  negF64 := id

/-- Host file-system services used by the READ_FILE / WRITE_FILE interrupts;
paths and contents are strings of Unicode scalar values. -/
structure HostEffects where
  readFile : List Nat → Option (List Nat)
  writeFile : List Nat → List Nat → Bool

/-- A trivial instantiation of `HostEffects` for concrete witnesses. -/
def trivEffects : HostEffects where
  readFile := fun _ => Option.none
  writeFile := fun _ _ => false

/-- The decoded instruction set, `Instruction` in `src/vm.rs`. -/
inductive Instruction where
  | NOP : Instruction
  | HLT : Instruction
  | INT : Nat → Instruction
  | PUSH : Immediate → Instruction
  | PUSHR : Nat → Instruction
  | POP : Nat → Instruction
  | LDI : Nat → Immediate → Instruction
  | CPY : Nat → Nat → Instruction
  | JMP : Nat → Instruction
  | JE : Nat → Instruction
  | JNE : Nat → Instruction
  | JG : Nat → Instruction
  | JL : Nat → Instruction
  | CMP : Nat → Nat → Instruction
  | DIV : Nat → Nat → Instruction
  | ADD : Nat → Nat → Instruction
  | SUB : Nat → Nat → Instruction
  | MUL : Nat → Nat → Instruction
  | AND : Nat → Nat → Instruction
  | OR : Nat → Nat → Instruction
  | XOR : Nat → Nat → Instruction
  | SHR : Nat → Immediate → Instruction
  | SHL : Nat → Immediate → Instruction
  | HSTORE : Nat → Instruction
  | HSTORER : Nat → Instruction
  | HLOAD : Nat → Instruction
  | HLOADR : Nat → Instruction
  deriving DecidableEq, Repr

/-- The interpreter state, `VirtualMachine` in `src/vm.rs`.  The register
file is a list that `initState` creates with exactly 16 slots (indexing past
it is the Rust array-bounds panic). -/
structure VMState where
  instr_ptr : Nat
  instr_mem : List Nat
  virt_mem : List Immediate
  stack : List Immediate
  reg : List Immediate
  flag_eq : Bool
  flag_gt : Bool
  is_exe : Bool
  deriving DecidableEq, Repr

/-- `VirtualMachine::new`: pc 0, heap of `heapMax` `None` cells, empty
stack, 16 registers holding `U8 0`, flags clear, latch clear. -/
def initState (mem : List Nat) (heapMax : Nat) : VMState where
  instr_ptr := 0
  instr_mem := mem
  virt_mem := List.replicate heapMax .None
  stack := []
  reg := List.replicate 16 (.U8 0)
  flag_eq := false
  flag_gt := false
  is_exe := false

/-- Variant discriminant in Rust declaration order; the derived `PartialOrd`
compares discriminants first. -/
def disc : Immediate → Nat
  | .None => 0
  | .U8 _ => 1
  | .I8 _ => 2
  | .U16 _ => 3
  | .I16 _ => 4
  | .U32 _ => 5
  | .I32 _ => 6
  | .U64 _ => 7
  | .I64 _ => 8
  | .F32 _ => 9
  | .F64 _ => 10

/-- Derived `PartialEq` on `Immediate`: same variant and equal payload
(float payloads compare through the uninterpreted `FloatOps`). -/
def immedEq (F : FloatOps) : Immediate → Immediate → Bool
  | .None, .None => true
  | .U8 a, .U8 b => a == b
  | .I8 a, .I8 b => a == b
  | .U16 a, .U16 b => a == b
  | .I16 a, .I16 b => a == b
  | .U32 a, .U32 b => a == b
  | .I32 a, .I32 b => a == b
  | .U64 a, .U64 b => a == b
  | .I64 a, .I64 b => a == b
  | .F32 a, .F32 b => F.f32Eq a b
  | .F64 a, .F64 b => F.f64Eq a b
  | _, _ => false

/-- Derived `PartialOrd` strict `>` on `Immediate`: payload order within a
variant, discriminant order across variants. -/
def immedGt (F : FloatOps) (x y : Immediate) : Bool :=
  match x, y with
  | .None, .None => false
  | .U8 a, .U8 b => decide (a > b)
  | .I8 a, .I8 b => decide (a > b)
  | .U16 a, .U16 b => decide (a > b)
  | .I16 a, .I16 b => decide (a > b)
  | .U32 a, .U32 b => decide (a > b)
  | .I32 a, .I32 b => decide (a > b)
  | .U64 a, .U64 b => decide (a > b)
  | .I64 a, .I64 b => decide (a > b)
  | .F32 a, .F32 b => F.f32Gt a b
  | .F64 a, .F64 b => F.f64Gt a b
  | _, _ => decide (disc x > disc y)

/-- Wrap an integer result into the unsigned `w`-bit range (release-profile
two's-complement wrapping, the overflow policy the spec fixes). -/
def wrapU (w : Nat) (n : Int) : Nat := (n % (2 : Int) ^ w).toNat

/-- Wrap an integer result into the signed `w`-bit range. -/
def wrapS (w : Nat) (n : Int) : Int := (n + 2 ^ (w - 1)) % 2 ^ w - 2 ^ (w - 1)

/-- The ADD dispatch of `execute` (src/vm.rs:645): same-variant addition,
any other pairing is the "can only add two registers..." panic. -/
def addImmed (F : FloatOps) : Immediate → Immediate → Option Immediate
  | .I8 a, .I8 b => some (.I8 (wrapS 8 (a + b)))
  | .I16 a, .I16 b => some (.I16 (wrapS 16 (a + b)))
  | .I32 a, .I32 b => some (.I32 (wrapS 32 (a + b)))
  | .I64 a, .I64 b => some (.I64 (wrapS 64 (a + b)))
  | .U8 a, .U8 b => some (.U8 (wrapU 8 ((a : Int) + b)))
  | .U16 a, .U16 b => some (.U16 (wrapU 16 ((a : Int) + b)))
  | .U32 a, .U32 b => some (.U32 (wrapU 32 ((a : Int) + b)))
  | .U64 a, .U64 b => some (.U64 (wrapU 64 ((a : Int) + b)))
  | .F32 a, .F32 b => some (.F32 (F.f32Add a b))
  | .F64 a, .F64 b => some (.F64 (F.f64Add a b))
  | _, _ => none

/-- The SUB dispatch of `execute` (src/vm.rs:658). -/
def subImmed (F : FloatOps) : Immediate → Immediate → Option Immediate
  | .I8 a, .I8 b => some (.I8 (wrapS 8 (a - b)))
  | .I16 a, .I16 b => some (.I16 (wrapS 16 (a - b)))
  | .I32 a, .I32 b => some (.I32 (wrapS 32 (a - b)))
  | .I64 a, .I64 b => some (.I64 (wrapS 64 (a - b)))
  | .U8 a, .U8 b => some (.U8 (wrapU 8 ((a : Int) - b)))
  | .U16 a, .U16 b => some (.U16 (wrapU 16 ((a : Int) - b)))
  | .U32 a, .U32 b => some (.U32 (wrapU 32 ((a : Int) - b)))
  | .U64 a, .U64 b => some (.U64 (wrapU 64 ((a : Int) - b)))
  | .F32 a, .F32 b => some (.F32 (F.f32Sub a b))
  | .F64 a, .F64 b => some (.F64 (F.f64Sub a b))
  | _, _ => none

/-- The MUL dispatch of `execute` (src/vm.rs:671).  Note the `U8` arm: the
source computes `a - b` there (src/vm.rs:676), not `a * b`; the embedding
reproduces that line verbatim. -/
def mulImmed (F : FloatOps) : Immediate → Immediate → Option Immediate
  | .I8 a, .I8 b => some (.I8 (wrapS 8 (a * b)))
  | .I16 a, .I16 b => some (.I16 (wrapS 16 (a * b)))
  | .I32 a, .I32 b => some (.I32 (wrapS 32 (a * b)))
  | .I64 a, .I64 b => some (.I64 (wrapS 64 (a * b)))
  | .U8 a, .U8 b => some (.U8 (wrapU 8 ((a : Int) - b)))
  | .U16 a, .U16 b => some (.U16 (wrapU 16 ((a : Int) * b)))
  | .U32 a, .U32 b => some (.U32 (wrapU 32 ((a : Int) * b)))
  | .U64 a, .U64 b => some (.U64 (wrapU 64 ((a : Int) * b)))
  | .F32 a, .F32 b => some (.F32 (F.f32Mul a b))
  | .F64 a, .F64 b => some (.F64 (F.f64Mul a b))
  | _, _ => none

/-- The DIV dispatch of `execute` (src/vm.rs:684).  Rust `/` is truncated
division and panics (in every build profile) on a zero divisor and on
`MIN / -1`. -/
def divImmed (F : FloatOps) : Immediate → Immediate → Option Immediate
  | .I8 a, .I8 b =>
    if b = 0 ∨ (a = -(2 ^ 7) ∧ b = -1) then none else some (.I8 (a.tdiv b))
  | .I16 a, .I16 b =>
    if b = 0 ∨ (a = -(2 ^ 15) ∧ b = -1) then none else some (.I16 (a.tdiv b))
  | .I32 a, .I32 b =>
    if b = 0 ∨ (a = -(2 ^ 31) ∧ b = -1) then none else some (.I32 (a.tdiv b))
  | .I64 a, .I64 b =>
    if b = 0 ∨ (a = -(2 ^ 63) ∧ b = -1) then none else some (.I64 (a.tdiv b))
  | .U8 a, .U8 b => if b = 0 then none else some (.U8 (a / b))
  | .U16 a, .U16 b => if b = 0 then none else some (.U16 (a / b))
  | .U32 a, .U32 b => if b = 0 then none else some (.U32 (a / b))
  | .U64 a, .U64 b => if b = 0 then none else some (.U64 (a / b))
  | .F32 a, .F32 b => some (.F32 (F.f32Div a b))
  | .F64 a, .F64 b => some (.F64 (F.f64Div a b))
  | _, _ => none

/-- Two's-complement bitwise AND (src/vm.rs:697); signed payloads go through
their bit patterns. -/
def andImmed : Immediate → Immediate → Option Immediate
  | .I8 a, .I8 b => some (.I8 (toSigned 8 (signedBits 8 a &&& signedBits 8 b)))
  | .I16 a, .I16 b => some (.I16 (toSigned 16 (signedBits 16 a &&& signedBits 16 b)))
  | .I32 a, .I32 b => some (.I32 (toSigned 32 (signedBits 32 a &&& signedBits 32 b)))
  | .I64 a, .I64 b => some (.I64 (toSigned 64 (signedBits 64 a &&& signedBits 64 b)))
  | .U8 a, .U8 b => some (.U8 (a &&& b))
  | .U16 a, .U16 b => some (.U16 (a &&& b))
  | .U32 a, .U32 b => some (.U32 (a &&& b))
  | .U64 a, .U64 b => some (.U64 (a &&& b))
  | _, _ => none

/-- Two's-complement bitwise OR (src/vm.rs:708). -/
def orImmed : Immediate → Immediate → Option Immediate
  | .I8 a, .I8 b => some (.I8 (toSigned 8 (signedBits 8 a ||| signedBits 8 b)))
  | .I16 a, .I16 b => some (.I16 (toSigned 16 (signedBits 16 a ||| signedBits 16 b)))
  | .I32 a, .I32 b => some (.I32 (toSigned 32 (signedBits 32 a ||| signedBits 32 b)))
  | .I64 a, .I64 b => some (.I64 (toSigned 64 (signedBits 64 a ||| signedBits 64 b)))
  | .U8 a, .U8 b => some (.U8 (a ||| b))
  | .U16 a, .U16 b => some (.U16 (a ||| b))
  | .U32 a, .U32 b => some (.U32 (a ||| b))
  | .U64 a, .U64 b => some (.U64 (a ||| b))
  | _, _ => none

/-- Two's-complement bitwise XOR (src/vm.rs:720). -/
def xorImmed : Immediate → Immediate → Option Immediate
  | .I8 a, .I8 b => some (.I8 (toSigned 8 (signedBits 8 a ^^^ signedBits 8 b)))
  | .I16 a, .I16 b => some (.I16 (toSigned 16 (signedBits 16 a ^^^ signedBits 16 b)))
  | .I32 a, .I32 b => some (.I32 (toSigned 32 (signedBits 32 a ^^^ signedBits 32 b)))
  | .I64 a, .I64 b => some (.I64 (toSigned 64 (signedBits 64 a ^^^ signedBits 64 b)))
  | .U8 a, .U8 b => some (.U8 (a ^^^ b))
  | .U16 a, .U16 b => some (.U16 (a ^^^ b))
  | .U32 a, .U32 b => some (.U32 (a ^^^ b))
  | .U64 a, .U64 b => some (.U64 (a ^^^ b))
  | _, _ => none

/-- Right shift (src/vm.rs:731): arithmetic on signed payloads (floor
division by a power of two).  A shift amount that is negative or at least
the operand width is Rust shift overflow (a panic under the debug profile
that the rest of the panic modelling follows); no claim exercises shifts. -/
def shrImmed : Immediate → Immediate → Option Immediate
  | .I8 a, .I8 b => if 0 ≤ b ∧ b < 8 then some (.I8 (Int.fdiv a (2 ^ b.toNat))) else none
  | .I16 a, .I16 b => if 0 ≤ b ∧ b < 16 then some (.I16 (Int.fdiv a (2 ^ b.toNat))) else none
  | .I32 a, .I32 b => if 0 ≤ b ∧ b < 32 then some (.I32 (Int.fdiv a (2 ^ b.toNat))) else none
  | .I64 a, .I64 b => if 0 ≤ b ∧ b < 64 then some (.I64 (Int.fdiv a (2 ^ b.toNat))) else none
  | .U8 a, .U8 b => if b < 8 then some (.U8 (a >>> b)) else none
  | .U16 a, .U16 b => if b < 16 then some (.U16 (a >>> b)) else none
  | .U32 a, .U32 b => if b < 32 then some (.U32 (a >>> b)) else none
  | .U64 a, .U64 b => if b < 64 then some (.U64 (a >>> b)) else none
  | _, _ => none

/-- Left shift (src/vm.rs:742), wrapping into the operand width. -/
def shlImmed : Immediate → Immediate → Option Immediate
  | .I8 a, .I8 b => if 0 ≤ b ∧ b < 8 then some (.I8 (wrapS 8 (a * 2 ^ b.toNat))) else none
  | .I16 a, .I16 b => if 0 ≤ b ∧ b < 16 then some (.I16 (wrapS 16 (a * 2 ^ b.toNat))) else none
  | .I32 a, .I32 b => if 0 ≤ b ∧ b < 32 then some (.I32 (wrapS 32 (a * 2 ^ b.toNat))) else none
  | .I64 a, .I64 b => if 0 ≤ b ∧ b < 64 then some (.I64 (wrapS 64 (a * 2 ^ b.toNat))) else none
  | .U8 a, .U8 b => if b < 8 then some (.U8 (wrapU 8 ((a : Int) * 2 ^ b))) else none
  | .U16 a, .U16 b => if b < 16 then some (.U16 (wrapU 16 ((a : Int) * 2 ^ b))) else none
  | .U32 a, .U32 b => if b < 32 then some (.U32 (wrapU 32 ((a : Int) * 2 ^ b))) else none
  | .U64 a, .U64 b => if b < 64 then some (.U64 (wrapU 64 ((a : Int) * 2 ^ b))) else none
  | _, _ => none

/-- Register file read, `self.reg[r]`; an index past the 16 slots is the
array-bounds panic. -/
def regGet (s : VMState) (r : Nat) : Option Immediate := s.reg.get? r

/-- In-place update of a cell, with the Rust bounds check (`v[i] = x` panics
when `i` is out of range, it never grows the vector). -/
def listSet? (l : List Immediate) (i : Nat) (v : Immediate) : Option (List Immediate) :=
  if i < l.length then some (l.set i v) else none

/-- The address conversion every interrupt and `HSTORER`/`HLOADR` perform:
`u8`/`u16`/`u32`/`u64` widen to `usize`, any other variant panics. -/
def addrOfImmed : Immediate → Option Nat
  | .U8 n => some n
  | .U16 n => some n
  | .U32 n => some n
  | .U64 n => some n
  | _ => none

/-- `self.stack.pop()`: top element and remainder, `none` when empty. -/
def popStack : List Immediate → Option (Immediate × List Immediate)
  | [] => none
  | v :: rest => some (v, rest)

/-- `char::from_u32` succeeds exactly on Unicode scalar values. -/
def validChar (c : Nat) : Bool := decide (c < 1114112) && !(decide (55296 ≤ c) && decide (c < 57344))

/-- The string-reading loop shared by the WRITE / READ_FILE / WRITE_FILE /
PANIC interrupts: read `U32` cells until `U32 0`; a non-`U32` cell, an
invalid scalar value, or running off the heap is a panic.  The fuel
argument is supplied as `mem.length + 1 - addr`, which bounds the
iteration count exactly (the cursor only moves right and the loop panics
at the end of the heap), so exhaustion coincides with the out-of-bounds
panic. -/
def readStr (mem : List Immediate) : Nat → Nat → Option (List Nat)
  | 0, _ => none
  | fuel + 1, addr => do
    let c ← mem.get? addr
    if c = .U32 0 then pure []
    else
      match c with
      | .U32 u =>
        if validChar u then do
          let rest ← readStr mem fuel (addr + 1)
          pure (u :: rest)
        else none
      | _ => none

/-- `readStr` with its canonical fuel. -/
def readStrFrom (mem : List Immediate) (addr : Nat) : Option (List Nat) :=
  readStr mem (mem.length + 1 - addr) addr

/-- The first-fit scan of the HEAP_ALLOC interrupt (src/vm.rs:370): walk the
heap keeping a count of the current run of free (`None`) cells; as soon as
the run reaches `n` ending at index `i`, return `i - n + 1`. -/
def allocScanGo (n : Nat) : List Immediate → Nat → Nat → Option Nat
  | [], _, _ => none
  | c :: rest, i, currFree =>
    if c = .None then
      if n ≤ currFree + 1 then some (i + 1 - n)
      else allocScanGo n rest (i + 1) (currFree + 1)
    else allocScanGo n rest (i + 1) 0

/-- The full scan over the heap. -/
def allocScan (mem : List Immediate) (n : Nat) : Option Nat := allocScanGo n mem 0 0

/-- The zeroing loop of HEAP_ALLOC (src/vm.rs:398): `for i in p..p+n`,
`virt_mem[i] = U8(0)`, with the indexing bounds check. -/
def zeroRange? (mem : List Immediate) (p : Nat) : Nat → Option (List Immediate)
  | 0 => some mem
  | k + 1 =>
    match listSet? mem p (.U8 0) with
    | none => none
    | some m2 => zeroRange? m2 (p + 1) k

/-- The character-copy loop of READ_FILE (src/vm.rs:465). -/
def writeChars (mem : List Immediate) (p : Nat) : List Nat → Option (List Immediate)
  | [] => some mem
  | c :: cs =>
    match listSet? mem p (.U32 c) with
    | none => none
    | some m2 => writeChars m2 (p + 1) cs

/-- The body of the HEAP_ALLOC interrupt (`execute`, INT 1 arm,
src/vm.rs:358): pop an address-kind length `n`; on a first fit zero the run
and push its start; otherwise append `n` zero cells and push
`U64 (oldLen - 1)`.  `oldLen = 0` makes `len() - 1` underflow, the checked
`usize` subtraction panic.  It is a named function (rather than an arm of
`executeInstr`) because READ_FILE re-enters `execute` with `INT 1`. -/
def heapAllocStep (s : VMState) : Option VMState :=
  match popStack s.stack with
  | none => none
  | some (top, rest) =>
    match addrOfImmed top with
    | none => none
    | some n =>
      match allocScan s.virt_mem n with
      | none =>
        if s.virt_mem.length = 0 then none
        else
          some { s with virt_mem := s.virt_mem ++ List.replicate n (.U8 0),
                        stack := .U64 (s.virt_mem.length - 1) :: rest }
      | some p =>
        match zeroRange? s.virt_mem p n with
        | none => none
        | some m2 => some { s with virt_mem := m2, stack := .U64 p :: rest }

/-- The JMP arm of `execute` (src/vm.rs:622): `instr_ptr := addr - 1` (the
main loop will step it forward again).  `addr = 0` underflows the `usize`
subtraction.  The conditional jumps re-enter `execute` with `JMP` in the
source; they call this shared step here. -/
def jmpStep (s : VMState) (a : Nat) : Option VMState :=
  if a = 0 then none else some { s with instr_ptr := a - 1 }

/-- Read two registers, `(self.reg[a], self.reg[b])`. -/
def regGet2 (s : VMState) (a b : Nat) : Option (Immediate × Immediate) :=
  match regGet s a with
  | none => none
  | some ra =>
    match regGet s b with
    | none => none
    | some rb => some (ra, rb)

/-- Push the result of an arithmetic dispatch, or propagate its panic. -/
def arithPush (s : VMState) : Option Immediate → Option VMState
  | none => none
  | some v => some { s with stack := v :: s.stack }

/-- `execute` (src/vm.rs:287), one instruction against one state.  `none` is
any Rust panic, and also the process exit of the PANIC interrupt.  Standard
output of the WRITE interrupt is discarded (no claim mentions it); the file
system is the `HostEffects` parameter.  The READ_FILE arm re-enters
`execute` with `INT 1` in the source; here both call `heapAllocStep`, and
the conditional jumps likewise call the shared `jmpStep`. -/
def executeInstr (F : FloatOps) (eff : HostEffects) : Instruction → VMState → Option VMState
  | .NOP, s => some s
  | .HLT, s => some { s with is_exe := false }
  | .INT i, s =>
    match i with
    | 0 =>
      match popStack s.stack with
      | none => none
      | some (top, rest) =>
        match addrOfImmed top with
        | none => none
        | some addr =>
          match readStrFrom s.virt_mem addr with
          | none => none
          | some _ => some { s with stack := rest }
    | 1 => heapAllocStep s
    | 2 =>
      match popStack s.stack with
      | none => none
      | some (top, rest) =>
        match addrOfImmed top with
        | none => none
        | some addr =>
          match readStrFrom s.virt_mem addr with
          | none => none
          | some path =>
            match eff.readFile path with
            | some content =>
              match heapAllocStep { s with stack := .U64 content.length :: rest } with
              | none => none
              | some s2 =>
                match popStack s2.stack with
                | none => none
                | some (t2, rest2) =>
                  match t2 with
                  | .U64 bufStart =>
                    match writeChars s2.virt_mem bufStart content with
                    | none => none
                    | some m2 =>
                      match listSet? m2 (bufStart + content.length) (.U32 0) with
                      | none => none
                      | some m3 =>
                        some { s2 with virt_mem := m3,
                                       stack := .U8 1 :: .U64 bufStart :: rest2 }
                  | _ => none
            | none => some { s with stack := .U8 0 :: .U64 0 :: rest }
    | 3 =>
      match popStack s.stack with
      | none => none
      | some (t1, r1) =>
        match addrOfImmed t1 with
        | none => none
        | some bufAddr =>
          match readStrFrom s.virt_mem bufAddr with
          | none => none
          | some buf =>
            match popStack r1 with
            | none => none
            | some (t2, r2) =>
              match addrOfImmed t2 with
              | none => none
              | some pathAddr =>
                match readStrFrom s.virt_mem pathAddr with
                | none => none
                | some path =>
                  some { s with stack := (if eff.writeFile path buf then .U8 1 else .U8 0) :: r2 }
    | 4 =>
      match popStack s.stack with
      | none => none
      | some (top, _) =>
        match addrOfImmed top with
        | none => none
        | some addr =>
          match readStrFrom s.virt_mem addr with
          | none => none
          | some _ => none
    | _ => none
  | .PUSH v, s => some { s with stack := v :: s.stack }
  | .PUSHR r, s =>
    match regGet s r with
    | none => none
    | some v => some { s with stack := v :: s.stack }
  | .POP r, s =>
    match popStack s.stack with
    | none => none
    | some (v, rest) =>
      match listSet? s.reg r v with
      | none => none
      | some regs2 => some { s with stack := rest, reg := regs2 }
  | .LDI r v, s =>
    match listSet? s.reg r v with
    | none => none
    | some regs2 => some { s with reg := regs2 }
  | .CPY a b, s =>
    match regGet s a with
    | none => none
    | some va =>
      match listSet? s.reg b va with
      | none => none
      | some regs2 => some { s with reg := regs2 }
  | .JMP a, s => jmpStep s a
  | .JE a, s => if s.flag_eq then jmpStep s a else some s
  | .JNE a, s => if s.flag_eq then some s else jmpStep s a
  | .JG a, s => if s.flag_gt then jmpStep s a else some s
  | .JL a, s => if s.flag_gt then some s else jmpStep s a
  | .CMP a b, s =>
    match regGet2 s a b with
    | none => none
    | some (r1, r2) =>
      some { s with flag_eq := immedEq F r1 r2, flag_gt := immedGt F r1 r2 }
  | .ADD a b, s =>
    match regGet2 s a b with
    | none => none
    | some (ra, rb) => arithPush s (addImmed F ra rb)
  | .SUB a b, s =>
    match regGet2 s a b with
    | none => none
    | some (ra, rb) => arithPush s (subImmed F ra rb)
  | .MUL a b, s =>
    match regGet2 s a b with
    | none => none
    | some (ra, rb) => arithPush s (mulImmed F ra rb)
  | .DIV a b, s =>
    match regGet2 s a b with
    | none => none
    | some (ra, rb) => arithPush s (divImmed F ra rb)
  | .AND a b, s =>
    match regGet2 s a b with
    | none => none
    | some (ra, rb) => arithPush s (andImmed ra rb)
  | .OR a b, s =>
    match regGet2 s a b with
    | none => none
    | some (ra, rb) => arithPush s (orImmed ra rb)
  | .XOR a b, s =>
    match regGet2 s a b with
    | none => none
    | some (ra, rb) => arithPush s (xorImmed ra rb)
  | .SHR r v, s =>
    match regGet s r with
    | none => none
    | some ra => arithPush s (shrImmed ra v)
  | .SHL r v, s =>
    match regGet s r with
    | none => none
    | some ra => arithPush s (shlImmed ra v)
  | .HSTORE a, s =>
    match popStack s.stack with
    | none => none
    | some (v, rest) =>
      match listSet? s.virt_mem a v with
      | none => none
      | some m2 => some { s with virt_mem := m2, stack := rest }
  | .HSTORER r, s =>
    match regGet s r with
    | none => none
    | some rv =>
      match addrOfImmed rv with
      | none => none
      | some addr =>
        match popStack s.stack with
        | none => none
        | some (v, rest) =>
          match listSet? s.virt_mem addr v with
          | none => none
          | some m2 => some { s with virt_mem := m2, stack := rest }
  | .HLOAD a, s =>
    match s.virt_mem.get? a with
    | none => none
    | some v => some { s with stack := v :: s.stack }
  | .HLOADR r, s =>
    match regGet s r with
    | none => none
    | some rv =>
      match addrOfImmed rv with
      | none => none
      | some addr =>
        match s.virt_mem.get? addr with
        | none => none
        | some v => some { s with stack := v :: s.stack }

/-- `decode` (src/vm.rs:176): read the opcode byte at `p` and its operands;
the returned cursor is the final `instr_ptr` (the source convention leaves
it on the last operand byte, except that NOP and HLT advance one past their
opcode and an unknown opcode does not advance at all). -/
def decode (mem : List Nat) (p : Nat) : Option (Instruction × Nat) := do
  let op ← mem.get? p
  match op with
  | 0 => pure (.NOP, p + 1)
  | 1 => pure (.HLT, p + 1)
  | 2 => do let n ← mem.get? (p + 1); pure (.INT n, p + 1)
  | 3 => do let (v, p2) ← decodeImmed mem p; pure (.PUSH v, p2)
  | 4 => do let r ← mem.get? (p + 1); pure (.PUSHR r, p + 1)
  | 5 => do let r ← mem.get? (p + 1); pure (.POP r, p + 1)
  | 6 => do
    let r ← mem.get? (p + 1)
    let (v, p2) ← decodeImmed mem (p + 1)
    pure (.LDI r v, p2)
  | 7 => do let a ← mem.get? (p + 1); let b ← mem.get? (p + 2); pure (.CPY a b, p + 2)
  | 8 => do let a ← mem.get? (p + 1); pure (.JMP a, p + 1)
  | 9 => do let a ← mem.get? (p + 1); pure (.JE a, p + 1)
  | 10 => do let a ← mem.get? (p + 1); pure (.JNE a, p + 1)
  | 11 => do let a ← mem.get? (p + 1); pure (.JG a, p + 1)
  | 12 => do let a ← mem.get? (p + 1); pure (.JL a, p + 1)
  | 13 => do let a ← mem.get? (p + 1); let b ← mem.get? (p + 2); pure (.CMP a b, p + 2)
  | 14 => do let a ← mem.get? (p + 1); let b ← mem.get? (p + 2); pure (.ADD a b, p + 2)
  | 15 => do let a ← mem.get? (p + 1); let b ← mem.get? (p + 2); pure (.SUB a b, p + 2)
  | 16 => do let a ← mem.get? (p + 1); let b ← mem.get? (p + 2); pure (.MUL a b, p + 2)
  | 17 => do let a ← mem.get? (p + 1); let b ← mem.get? (p + 2); pure (.DIV a b, p + 2)
  | 18 => do let a ← mem.get? (p + 1); let b ← mem.get? (p + 2); pure (.AND a b, p + 2)
  | 19 => do let a ← mem.get? (p + 1); let b ← mem.get? (p + 2); pure (.OR a b, p + 2)
  | 20 => do let a ← mem.get? (p + 1); let b ← mem.get? (p + 2); pure (.XOR a b, p + 2)
  | 21 => do
    let r ← mem.get? (p + 1)
    let (v, p2) ← decodeImmed mem (p + 1)
    pure (.SHR r v, p2)
  | 22 => do
    let r ← mem.get? (p + 1)
    let (v, p2) ← decodeImmed mem (p + 1)
    pure (.SHL r v, p2)
  | 23 => do let a ← mem.get? (p + 1); pure (.HSTORE a, p + 1)
  | 24 => do let r ← mem.get? (p + 1); pure (.HSTORER r, p + 1)
  | 25 => do let a ← mem.get? (p + 1); pure (.HLOAD a, p + 1)
  | 26 => do let r ← mem.get? (p + 1); pure (.HLOADR r, p + 1)
  | _ => pure (.NOP, p)

/-- The fetch-decode-execute loop of `exec` (src/vm.rs:87): while the pc is
inside instruction memory and the latch is set, decode, execute, and step
the pc.  `none` is a runtime panic or fuel exhaustion (the loop need not
terminate: jumps can loop). -/
def runLoop (F : FloatOps) (eff : HostEffects) : Nat → VMState → Option VMState
  | fuel, s =>
    if s.instr_ptr < s.instr_mem.length ∧ s.is_exe then
      match fuel with
      | 0 => none
      | f + 1 =>
        match decode s.instr_mem s.instr_ptr with
        | none => none
        | some (instr, p2) =>
          match executeInstr F eff instr { s with instr_ptr := p2 } with
          | none => none
          | some s2 => runLoop F eff f { s2 with instr_ptr := s2.instr_ptr + 1 }
    else some s

/-- `exec` (src/vm.rs:80): a second call on an already-run VM returns at
once; otherwise set the latch and run the loop. -/
def exec (F : FloatOps) (eff : HostEffects) (fuel : Nat) (s : VMState) : Option VMState :=
  if s.is_exe then some s else runLoop F eff fuel { s with is_exe := true }

/-- C2 counter-evidence: with register 0 holding `U8 3` and register 1
holding `U8 2` (same variant, product 6 representable), MUL pushes `U8 1` —
the `U8` arm of the MUL dispatch subtracts (src/vm.rs:676) instead of
multiplying, while every other arm multiplies. -/
theorem mul_u8_pushes_difference :
    (executeInstr trivFloatOps trivEffects (.MUL 0 1)
        { initState [] 4 with reg := .U8 3 :: .U8 2 :: List.replicate 14 (.U8 0) }).map
        VMState.stack = some [.U8 1] ∧
    (executeInstr trivFloatOps trivEffects (.MUL 0 1)
        { initState [] 4 with reg := .U8 3 :: .U8 2 :: List.replicate 14 (.U8 0) }).map
        VMState.stack ≠ some [.U8 6] := by
  constructor
  · rfl
  · decide

/-- C7: JL jumps (pc := a - 1) exactly when the `gt` flag is false, for every
state — in particular for either value of the `eq` flag, which the statement
never consults; when `gt` is set the state is returned unchanged. -/
theorem jl_branches_iff_not_gt (F : FloatOps) (eff : HostEffects) (s : VMState) (a : Nat)
    (ha : 1 ≤ a) :
    executeInstr F eff (.JL a) s =
      some (if s.flag_gt then s else { s with instr_ptr := a - 1 }) := by
  have ha0 : a ≠ 0 := by omega
  by_cases h : s.flag_gt <;> simp [executeInstr, jmpStep, h, ha0]

/-- Witness for C7 at `a = 5` on a fresh state (both flags false): the jump
is taken and the pc becomes 4. -/
theorem jl_branches_iff_not_gt_witness :
    executeInstr trivFloatOps trivEffects (.JL 5) (initState [] 0) =
      some (if (initState [] 0).flag_gt then initState [] 0
            else { initState [] 0 with instr_ptr := 5 - 1 }) :=
  jl_branches_iff_not_gt trivFloatOps trivEffects (initState [] 0) 5 (by omega)

/-- An integer (non-float, non-`None`) variant. -/
def isIntVariant : Immediate → Bool
  | .U8 _ => true
  | .U16 _ => true
  | .U32 _ => true
  | .U64 _ => true
  | .I8 _ => true
  | .I16 _ => true
  | .I32 _ => true
  | .I64 _ => true
  | _ => false

/-- The numeric payload is zero. -/
def payloadIsZero : Immediate → Bool
  | .U8 n => n == 0
  | .U16 n => n == 0
  | .U32 n => n == 0
  | .U64 n => n == 0
  | .I8 i => i == 0
  | .I16 i => i == 0
  | .I32 i => i == 0
  | .I64 i => i == 0
  | _ => false

/-- C10: DIV on two registers of the same integer variant with a zero
divisor is the unguarded Rust division panic — the interpreter aborts,
nothing is pushed, and no result state exists for the bytecode to recover
into. -/
theorem div_by_zero_panics (F : FloatOps) (eff : HostEffects) (s : VMState) (a b : Nat)
    (ra rb : Immediate) (hra : regGet s a = some ra) (hrb : regGet s b = some rb)
    (hint : isIntVariant ra = true) (hsame : disc ra = disc rb)
    (hz : payloadIsZero rb = true) :
    executeInstr F eff (.DIV a b) s = none := by
  cases ra <;> cases rb <;>
    simp_all [executeInstr, regGet2, arithPush, divImmed, isIntVariant, payloadIsZero, disc]

/-- Witness for C10: `U8 3 / U8 0` aborts. -/
theorem div_by_zero_panics_witness :
    executeInstr trivFloatOps trivEffects (.DIV 0 1)
      { initState [] 4 with reg := .U8 3 :: .U8 0 :: List.replicate 14 (.U8 0) } = none :=
  div_by_zero_panics trivFloatOps trivEffects
    { initState [] 4 with reg := .U8 3 :: .U8 0 :: List.replicate 14 (.U8 0) }
    0 1 (.U8 3) (.U8 0) rfl rfl rfl rfl rfl

/-- The loop of `exec` exits only when its condition fails: on a returned
state either the latch is clear or the pc is at or beyond the end of
instruction memory. -/
theorem runLoop_exit (F : FloatOps) (eff : HostEffects) :
    ∀ fuel s s2, runLoop F eff fuel s = some s2 →
      s2.is_exe = false ∨ s2.instr_mem.length ≤ s2.instr_ptr := by
  intro fuel
  induction fuel with
  | zero =>
    intro s s2 h
    rw [runLoop] at h
    split at h
    · simp at h
    · next hcond =>
      cases h
      by_cases hb : s.is_exe = true
      · right
        by_contra hlt
        exact hcond ⟨by omega, by simp [hb]⟩
      · left
        simpa using hb
  | succ f ih =>
    intro s s2 h
    rw [runLoop] at h
    split at h
    · split at h
      · simp at h
      · split at h
        · simp at h
        · exact ih _ _ h
    · next hcond =>
      cases h
      by_cases hb : s.is_exe = true
      · right
        by_contra hlt
        exact hcond ⟨by omega, by simp [hb]⟩
      · left
        simpa using hb

/-- C6 counterexample: on the empty program, `exec` returns with the
execution latch still true — the claim "after exec returns the latch is
false, whether by HLT or by walking off the end" fails on the walk-off path
(nothing but HLT ever clears the latch, src/vm.rs:290). -/
theorem exec_latch_true_counterexample :
    (exec trivFloatOps trivEffects 1 (initState [] 4)).map VMState.is_exe = some true := rfl

/-- C6 amended: when `exec` returns on a not-yet-run VM, either the latch is
false (execution ended by HLT) or the program counter has walked off the end
of instruction memory — in the walk-off case the latch stays true. -/
theorem exec_exit_condition (F : FloatOps) (eff : HostEffects) (fuel : Nat) (s s2 : VMState)
    (h0 : s.is_exe = false) (h : exec F eff fuel s = some s2) :
    s2.is_exe = false ∨ s2.instr_mem.length ≤ s2.instr_ptr := by
  rw [exec, if_neg (by simp [h0])] at h
  exact runLoop_exit F eff fuel _ s2 h

/-- Witness for C6 (amended) on the one-instruction program `[HLT]`. -/
theorem exec_exit_condition_witness :
    ({ instr_ptr := 2, instr_mem := [1], virt_mem := List.replicate 4 .None, stack := [],
       reg := List.replicate 16 (.U8 0), flag_eq := false, flag_gt := false,
       is_exe := false } : VMState).is_exe = false ∨
    ({ instr_ptr := 2, instr_mem := [1], virt_mem := List.replicate 4 .None, stack := [],
       reg := List.replicate 16 (.U8 0), flag_eq := false, flag_gt := false,
       is_exe := false } : VMState).instr_mem.length ≤
    ({ instr_ptr := 2, instr_mem := [1], virt_mem := List.replicate 4 .None, stack := [],
       reg := List.replicate 16 (.U8 0), flag_eq := false, flag_gt := false,
       is_exe := false } : VMState).instr_ptr :=
  exec_exit_condition trivFloatOps trivEffects 2 (initState [1] 4) _ rfl rfl

/-- `runAt mem p n`: the `n` heap cells starting at `p` all exist and are
free (`None`). -/
def runAt (mem : List Immediate) (p n : Nat) : Prop :=
  ∀ j, j < n → mem.get? (p + j) = some .None

/-- Invariant-based specification of the first-fit scan: entered at index
`i` with `cf` the length of the maximal free run ending just before `i` and
no complete `n`-run strictly before `i`, the scan returns the least start of
an `n`-run, or `none` when there is none. -/
theorem allocScanGo_spec (mem : List Immediate) (n : Nat) (hn : 0 < n) :
    ∀ l i cf, mem.drop i = l → cf ≤ i →
      (∀ j, i - cf ≤ j → j < i → mem.get? j = some .None) →
      (cf = i ∨ ¬ mem.get? (i - cf - 1) = some .None) →
      (∀ q, q + n ≤ i → ¬ runAt mem q n) →
      (match allocScanGo n l i cf with
       | some p => runAt mem p n ∧ ∀ q, q < p → ¬ runAt mem q n
       | none => ∀ q, ¬ runAt mem q n) := by
  intro l
  induction l with
  | nil =>
    intro i cf hdrop hcf hrun hmax hno
    simp only [allocScanGo]
    intro q hq
    have hlen : mem.length ≤ i := by
      have h := congrArg List.length hdrop
      simp at h
      omega
    have h1 := hq (n - 1) (by omega)
    have h2 : q + (n - 1) < mem.length := by
      by_contra hge
      rw [List.get?_eq_none.mpr (by omega)] at h1
      exact Option.noConfusion h1
    exact hno q (by omega) hq
  | cons c rest ih =>
    intro i cf hdrop hcf hrun hmax hno
    have hgi : mem.get? i = some c := by
      have h0 : (mem.drop i).get? 0 = some c := by rw [hdrop]; rfl
      rwa [List.get?_drop, Nat.add_zero] at h0
    have hdrop2 : mem.drop (i + 1) = rest := by
      have h0 : (mem.drop i).drop 1 = rest := by rw [hdrop]; rfl
      rwa [List.drop_drop] at h0
    rw [allocScanGo]
    by_cases hc : c = .None
    · rw [if_pos hc]
      by_cases hfit : n ≤ cf + 1
      · rw [if_pos hfit]
        constructor
        · intro j hj
          by_cases hji : (i + 1 - n) + j = i
          · rw [hji, hgi, hc]
          · exact hrun _ (by omega) (by omega)
        · intro q hq hrunq
          exact hno q (by omega) hrunq
      · rw [if_neg hfit]
        apply ih (i + 1) (cf + 1) hdrop2 (by omega)
        · intro j h1 h2
          by_cases hji : j = i
          · rw [hji, hgi, hc]
          · exact hrun j (by omega) (by omega)
        · rcases hmax with h | h
          · left; omega
          · right
            rwa [show i + 1 - (cf + 1) - 1 = i - cf - 1 by omega]
        · intro q hq hrunq
          by_cases hqi : q + n ≤ i
          · exact hno q hqi hrunq
          · have hqn : q + n = i + 1 := by omega
            have hq2 : q ≤ i - cf - 1 := by omega
            have hcfi : cf < i := by omega
            have hcell := hrunq ((i - cf - 1) - q) (by omega)
            rw [show q + ((i - cf - 1) - q) = i - cf - 1 by omega] at hcell
            rcases hmax with h | h
            · omega
            · exact h hcell
    · rw [if_neg hc]
      apply ih (i + 1) 0 hdrop2 (by omega)
      · intro j h1 h2
        omega
      · right
        rw [show i + 1 - 0 - 1 = i by omega, hgi]
        intro hcon
        exact hc (Option.some.inj hcon)
      · intro q hq hrunq
        by_cases hqi : q + n ≤ i
        · exact hno q hqi hrunq
        · have := hrunq (n - 1) (by omega)
          rw [show q + (n - 1) = i by omega, hgi] at this
          exact hc (Option.some.inj this)

theorem get?_set_self (l : List Immediate) (i : Nat) (v : Immediate) (h : i < l.length) :
    (l.set i v).get? i = some v := by
  rw [List.get?_eq_getElem?]
  exact List.getElem?_set_eq_of_lt v h

theorem get?_set_other (l : List Immediate) (i j : Nat) (v : Immediate) (h : i ≠ j) :
    (l.set i v).get? j = l.get? j := by
  rw [List.get?_eq_getElem?, List.get?_eq_getElem?]
  exact List.getElem?_set_ne h

theorem runAt_le_length (mem : List Immediate) (p n : Nat) (hn : 0 < n) (h : runAt mem p n) :
    p + n ≤ mem.length := by
  have h1 := h (n - 1) (by omega)
  by_contra hge
  rw [List.get?_eq_none.mpr (by omega)] at h1
  exact Option.noConfusion h1

theorem allocScan_spec (mem : List Immediate) (n : Nat) (hn : 0 < n) :
    match allocScan mem n with
    | some p => runAt mem p n ∧ ∀ q, q < p → ¬ runAt mem q n
    | none => ∀ q, ¬ runAt mem q n := by
  have h := allocScanGo_spec mem n hn mem 0 0 rfl (Nat.le_refl 0)
    (by intro j h1 h2; omega)
    (Or.inl rfl)
    (by intro q hq; exact absurd hq (by omega))
  exact h

theorem zeroRange?_spec :
    ∀ (n : Nat) (mem : List Immediate) (p : Nat), p + n ≤ mem.length →
    ∃ m2, zeroRange? mem p n = some m2 ∧ m2.length = mem.length ∧
      (∀ j, p ≤ j → j < p + n → m2.get? j = some (.U8 0)) ∧
      (∀ j, j < p ∨ p + n ≤ j → m2.get? j = mem.get? j) := by
  intro n
  induction n with
  | zero =>
    intro mem p hlen
    exact ⟨mem, rfl, rfl, by intro j h1 h2; omega, by intro j h; rfl⟩
  | succ k ih =>
    intro mem p hlen
    have hp : p < mem.length := by omega
    have hset : listSet? mem p (Immediate.U8 0) = some (mem.set p (Immediate.U8 0)) := by
      simp [listSet?, hp]
    obtain ⟨m2, hz, hlen2, hin, hout⟩ := ih (mem.set p (Immediate.U8 0)) (p + 1) (by simp; omega)
    refine ⟨m2, ?_, ?_, ?_, ?_⟩
    · rw [zeroRange?, hset]
      exact hz
    · rw [hlen2, List.length_set]
    · intro j h1 h2
      by_cases hj : j = p
      · subst hj
        rw [hout j (Or.inl (by omega)), get?_set_self _ _ _ hp]
      · exact hin j (by omega) (by omega)
    · intro j h
      have hj : j ≠ p := by omega
      rw [hout j (by omega), get?_set_other _ _ _ _ (by omega)]

/-- C3: when the stack top is an address-kind immediate `n ≥ 1` and the heap
has a run of `n` free cells, INT 1 pops it, zeroes the `n` cells starting at
the smallest run start `p` (leaving every other cell and the heap length
unchanged) and pushes `U64 p`. -/
theorem int1_first_fit (F : FloatOps) (eff : HostEffects) (s : VMState) (top : Immediate)
    (rest : List Immediate) (n : Nat)
    (hstack : s.stack = top :: rest) (haddr : addrOfImmed top = some n) (hn : 1 ≤ n)
    (hex : ∃ p, runAt s.virt_mem p n) :
    ∃ p s2, executeInstr F eff (.INT 1) s = some s2 ∧
      runAt s.virt_mem p n ∧ (∀ q, q < p → ¬ runAt s.virt_mem q n) ∧
      s2.stack = .U64 p :: rest ∧
      s2.virt_mem.length = s.virt_mem.length ∧
      (∀ j, p ≤ j → j < p + n → s2.virt_mem.get? j = some (.U8 0)) ∧
      (∀ j, j < p ∨ p + n ≤ j → s2.virt_mem.get? j = s.virt_mem.get? j) := by
  have hspec := allocScan_spec s.virt_mem n (by omega)
  obtain ⟨p0, hrun0⟩ := hex
  cases hscan : allocScan s.virt_mem n with
  | none =>
    rw [hscan] at hspec
    exact absurd hrun0 (hspec p0)
  | some p =>
    rw [hscan] at hspec
    obtain ⟨hrunp, hmin⟩ := hspec
    have hle : p + n ≤ s.virt_mem.length := runAt_le_length _ _ _ (by omega) hrunp
    obtain ⟨m2, hz, hlen2, hin, hout⟩ := zeroRange?_spec n s.virt_mem p hle
    refine ⟨p, { s with virt_mem := m2, stack := .U64 p :: rest }, ?_, hrunp, hmin, rfl,
      hlen2, hin, hout⟩
    show heapAllocStep s = _
    rw [heapAllocStep, hstack]
    simp only [popStack, haddr, hscan, hz]

/-- C4: when no `n`-cell free run exists, INT 1 appends exactly `n` `U8 0`
cells (the heap length becomes `oldLen + n`) and pushes `U64 (oldLen - 1)`,
which overlaps the last pre-existing cell.  `oldLen ≥ 1` is required: with
an empty heap the source's `len() - 1` underflows. -/
theorem int1_growth (F : FloatOps) (eff : HostEffects) (s : VMState) (top : Immediate)
    (rest : List Immediate) (n : Nat)
    (hstack : s.stack = top :: rest) (haddr : addrOfImmed top = some n) (hn : 1 ≤ n)
    (hno : ∀ p, ¬ runAt s.virt_mem p n) (hlen : 1 ≤ s.virt_mem.length) :
    executeInstr F eff (.INT 1) s =
      some { s with virt_mem := s.virt_mem ++ List.replicate n (.U8 0),
                    stack := .U64 (s.virt_mem.length - 1) :: rest } ∧
    (s.virt_mem ++ List.replicate n (Immediate.U8 0)).length = s.virt_mem.length + n := by
  have hscan : allocScan s.virt_mem n = none := by
    have hspec := allocScan_spec s.virt_mem n (by omega)
    cases heq : allocScan s.virt_mem n with
    | none => rfl
    | some p =>
      rw [heq] at hspec
      exact absurd hspec.1 (hno p)
  constructor
  · show heapAllocStep s = _
    rw [heapAllocStep, hstack]
    simp only [popStack, haddr, hscan]
    rw [if_neg (by omega)]
  · simp

/-- A concrete heap for the C3 witness: `[U8 5, None, None]`, allocating 2
cells must pick `p = 1`. -/
def fitWitnessState : VMState :=
  { initState [] 0 with virt_mem := [.U8 5, .None, .None], stack := [.U8 2] }

/-- Witness for C3 on `fitWitnessState`. -/
theorem int1_first_fit_witness :
    ∃ p s2, executeInstr trivFloatOps trivEffects (.INT 1) fitWitnessState = some s2 ∧
      runAt fitWitnessState.virt_mem p 2 ∧
      (∀ q, q < p → ¬ runAt fitWitnessState.virt_mem q 2) ∧
      s2.stack = .U64 p :: [] ∧
      s2.virt_mem.length = fitWitnessState.virt_mem.length ∧
      (∀ j, p ≤ j → j < p + 2 → s2.virt_mem.get? j = some (.U8 0)) ∧
      (∀ j, j < p ∨ p + 2 ≤ j → s2.virt_mem.get? j = fitWitnessState.virt_mem.get? j) :=
  int1_first_fit trivFloatOps trivEffects fitWitnessState (.U8 2) [] 2 rfl rfl (by omega)
    ⟨1, by intro j hj; interval_cases j <;> rfl⟩

/-- A concrete heap for the C4 witness: `[U8 5]` has no free cell. -/
def growWitnessState : VMState :=
  { initState [] 0 with virt_mem := [.U8 5], stack := [.U8 1] }

/-- Witness for C4 on `growWitnessState`: the heap grows to 2 cells and
`U64 0` (= oldLen - 1) is pushed. -/
theorem int1_growth_witness :
    executeInstr trivFloatOps trivEffects (.INT 1) growWitnessState =
      some { growWitnessState with
               virt_mem := growWitnessState.virt_mem ++ List.replicate 1 (Immediate.U8 0),
               stack := .U64 (growWitnessState.virt_mem.length - 1) :: [] } ∧
    (growWitnessState.virt_mem ++ List.replicate 1 (Immediate.U8 0)).length =
      growWitnessState.virt_mem.length + 1 :=
  int1_growth trivFloatOps trivEffects growWitnessState (.U8 1) [] 1 rfl rfl (by omega)
    (by
      intro p hr
      have h := hr 0 (by omega)
      rcases p with _ | q
      · simp [fitWitnessState, growWitnessState] at h
      · simp [growWitnessState] at h)
    (by decide)

theorem jmpStep_flags (s s2 : VMState) (a : Nat) (h : jmpStep s a = some s2) :
    s2.flag_eq = s.flag_eq ∧ s2.flag_gt = s.flag_gt := by
  rw [jmpStep] at h
  split at h
  · exact Option.noConfusion h
  · cases h; exact ⟨rfl, rfl⟩

theorem heapAllocStep_flags (s s2 : VMState) (h : heapAllocStep s = some s2) :
    s2.flag_eq = s.flag_eq ∧ s2.flag_gt = s.flag_gt := by
  rw [heapAllocStep] at h
  repeat' split at h
  all_goals first
    | exact Option.noConfusion h
    | (cases h; exact ⟨rfl, rfl⟩)

theorem int_flags (F : FloatOps) (eff : HostEffects) (i : Nat) (s s2 : VMState)
    (h : executeInstr F eff (.INT i) s = some s2) :
    s2.flag_eq = s.flag_eq ∧ s2.flag_gt = s.flag_gt := by
  simp only [executeInstr] at h
  split at h
  -- i = 0
  · repeat' split at h
    all_goals first
      | exact Option.noConfusion h
      | (cases h; exact ⟨rfl, rfl⟩)
  -- i = 1
  · exact heapAllocStep_flags _ _ h
  -- i = 2
  · rcases hpop : popStack s.stack with _ | ⟨top, rest⟩
    · simp only [hpop] at h; exact Option.noConfusion h
    · simp only [hpop] at h
      rcases haddr : addrOfImmed top with _ | addr
      · simp only [haddr] at h; exact Option.noConfusion h
      · simp only [haddr] at h
        rcases hrs : readStrFrom s.virt_mem addr with _ | path
        · simp only [hrs] at h; exact Option.noConfusion h
        · simp only [hrs] at h
          rcases hrf : eff.readFile path with _ | content
          · simp only [hrf] at h
            cases h; exact ⟨rfl, rfl⟩
          · simp only [hrf] at h
            rcases hAlloc : heapAllocStep { s with stack := .U64 content.length :: rest }
              with _ | s3
            · simp only [hAlloc] at h; exact Option.noConfusion h
            · simp only [hAlloc] at h
              obtain ⟨hfe, hfg⟩ := heapAllocStep_flags _ _ hAlloc
              rcases hpop2 : popStack s3.stack with _ | ⟨t2, rest2⟩
              · simp only [hpop2] at h; exact Option.noConfusion h
              · simp only [hpop2] at h
                rcases t2 with _ | u | u | u | u | u | u | u | u | u | u
                all_goals try exact Option.noConfusion h
                rcases hwc : writeChars s3.virt_mem u content with _ | m2
                · simp only [hwc] at h; exact Option.noConfusion h
                · simp only [hwc] at h
                  rcases hset : listSet? m2 (u + content.length) (Immediate.U32 0) with _ | m3
                  · simp only [hset] at h; exact Option.noConfusion h
                  · simp only [hset] at h
                    cases h
                    exact ⟨hfe, hfg⟩
  -- i = 3
  · repeat' split at h
    all_goals first
      | exact Option.noConfusion h
      | (cases h; exact ⟨rfl, rfl⟩)
  -- i = 4
  · repeat' split at h
    all_goals exact Option.noConfusion h
  -- unknown interrupt
  · exact Option.noConfusion h

theorem regGet2_eq (s : VMState) (a b : Nat) (ra rb : Immediate)
    (h : regGet2 s a b = some (ra, rb)) :
    regGet s a = some ra ∧ regGet s b = some rb := by
  rw [regGet2] at h
  repeat' split at h
  all_goals first
    | exact Option.noConfusion h
    | (injection h with h2; injection h2 with h3 h4; subst h3; subst h4
       constructor <;> assumption)

theorem arithPush_flags (s s2 : VMState) (o : Option Immediate) (h : arithPush s o = some s2) :
    s2.flag_eq = s.flag_eq ∧ s2.flag_gt = s.flag_gt := by
  cases o with
  | none => exact Option.noConfusion h
  | some v =>
    cases h
    exact ⟨rfl, rfl⟩

/-- C9: CMP sets `eq` to the register equality and `gt` to the register
strict order, and every other instruction leaves both flags exactly as it
found them — so along any execution the flags stay at their initial `false`
until the first CMP and always reflect the most recent CMP thereafter. -/
theorem cmp_sets_flags_others_preserve (F : FloatOps) (eff : HostEffects)
    (instr : Instruction) (s s2 : VMState)
    (h : executeInstr F eff instr s = some s2) :
    (∀ a b, instr = .CMP a b →
      ∃ ra rb, regGet s a = some ra ∧ regGet s b = some rb ∧
        s2.flag_eq = immedEq F ra rb ∧ s2.flag_gt = immedGt F ra rb) ∧
    ((∀ a b, instr ≠ .CMP a b) → s2.flag_eq = s.flag_eq ∧ s2.flag_gt = s.flag_gt) := by
  constructor
  · intro a b heq
    subst heq
    simp only [executeInstr] at h
    split at h
    · exact Option.noConfusion h
    · rename_i r1 r2 hpair
      cases h
      obtain ⟨h1, h2⟩ := regGet2_eq s a b r1 r2 hpair
      exact ⟨r1, r2, h1, h2, rfl, rfl⟩
  · intro hne
    cases instr
    case INT i => exact int_flags F eff i s s2 h
    case CMP a b => exact absurd rfl (hne a b)
    all_goals simp only [executeInstr] at h
    all_goals repeat' split at h
    all_goals first
      | exact Option.noConfusion h
      | (cases h; exact ⟨rfl, rfl⟩)
      | exact jmpStep_flags _ _ _ h
      | exact arithPush_flags _ _ _ h

/-- Witness for C9: CMP 0 1 on a fresh state (both registers `U8 0`) yields
`eq = true`, `gt = false`; the instantiated conclusion below is produced by
the theorem at that input. -/
theorem cmp_sets_flags_others_preserve_witness :
    (∀ a b, (Instruction.CMP 0 1) = .CMP a b →
      ∃ ra rb, regGet (initState [] 0) a = some ra ∧ regGet (initState [] 0) b = some rb ∧
        ({ instr_ptr := 0, instr_mem := [], virt_mem := [], stack := [],
           reg := List.replicate 16 (.U8 0), flag_eq := true, flag_gt := false,
           is_exe := false } : VMState).flag_eq = immedEq trivFloatOps ra rb ∧
        ({ instr_ptr := 0, instr_mem := [], virt_mem := [], stack := [],
           reg := List.replicate 16 (.U8 0), flag_eq := true, flag_gt := false,
           is_exe := false } : VMState).flag_gt = immedGt trivFloatOps ra rb) ∧
    ((∀ a b, (Instruction.CMP 0 1) ≠ .CMP a b) →
      ({ instr_ptr := 0, instr_mem := [], virt_mem := [], stack := [],
         reg := List.replicate 16 (.U8 0), flag_eq := true, flag_gt := false,
         is_exe := false } : VMState).flag_eq = (initState [] 0).flag_eq ∧
      ({ instr_ptr := 0, instr_mem := [], virt_mem := [], stack := [],
         reg := List.replicate 16 (.U8 0), flag_eq := true, flag_gt := false,
         is_exe := false } : VMState).flag_gt = (initState [] 0).flag_gt) :=
  cmp_sets_flags_others_preserve trivFloatOps trivEffects (.CMP 0 1) (initState [] 0) _ rfl

/-- The assembler state, `Assembler` in `src/assembler.rs`: output byte
vector, label table, patch list, source characters, the `bit` write-offset
counter, the current character and its index. -/
structure AsmState where
  machine_c : List Nat
  lbls : List (String × Nat)
  lbl_replaces : List (Nat × String)
  src : List Char
  bit : Nat
  ch : Char
  i : Nat
  deriving Repr

/-- `Assembler::new`: `ch` is the first character, or NUL on empty input. -/
def asmInit (src : List Char) : AsmState where
  machine_c := []
  lbls := []
  lbl_replaces := []
  src := src
  bit := 0
  ch := (src.get? 0).getD '\x00'
  i := 0

/-- `adv` (src/assembler.rs:657): sticky at NUL, otherwise step to the next
character, panicking past the end of the source vector. -/
def adv (s : AsmState) : Option AsmState :=
  if s.ch = '\x00' then some s
  else
    match s.src.get? (s.i + 1) with
    | none => none
    | some c => some { s with i := s.i + 1, ch := c }

/-- The characters ending the token-reading loop of `rd_til_ws` (NUL or
whitespace). -/
def isStop1 (c : Char) : Bool :=
  c = '\x00' || c = '\n' || c = '\r' || c = '\t' || c = ' '

/-- The whitespace set of the trailing-skip loop of `rd_til_ws`. -/
def isWs (c : Char) : Bool :=
  c = '\n' || c = '\r' || c = ' ' || c = '\t'

/-- First loop of `rd_til_ws` (src/assembler.rs:451): collect characters
until NUL or whitespace.  The fuel (`src.length + 1 - i` at the call site)
bounds the iterations exactly: `i` strictly increases and `adv` panics at
the end of the source. -/
def rdLoop1 : Nat → AsmState → String → Option (AsmState × String)
  | fuel, s, buf =>
    if isStop1 s.ch then some (s, buf)
    else
      match fuel with
      | 0 => none
      | f + 1 =>
        match adv s with
        | none => none
        | some s2 => rdLoop1 f s2 (buf.push s.ch)

/-- Second loop of `rd_til_ws` (src/assembler.rs:456): skip whitespace. -/
def rdLoop2 : Nat → AsmState → Option AsmState
  | fuel, s =>
    if isWs s.ch then
      match fuel with
      | 0 => none
      | f + 1 =>
        match adv s with
        | none => none
        | some s2 => rdLoop2 f s2
    else some s

/-- `rd_til_ws` (src/assembler.rs:448): one whitespace-delimited token, with
the trailing whitespace consumed. -/
def rdTilWs (s : AsmState) : Option (AsmState × String) :=
  match rdLoop1 (s.src.length + 1 - s.i) s "" with
  | none => none
  | some (s1, buf) =>
    match rdLoop2 (s1.src.length + 1 - s1.i) s1 with
    | none => none
    | some s2 => some (s2, buf)

/-- Decimal digit accumulation for Rust `str::parse`. -/
def digitsValGo : List Char → Nat → Option Nat
  | [], acc => some acc
  | c :: cs, acc =>
    if c.isDigit then digitsValGo cs (acc * 10 + (c.toNat - 48)) else none

/-- One or more decimal digits. -/
def parseNatDigits : List Char → Option Nat
  | [] => none
  | cs => digitsValGo cs 0

/-- `usize::MAX` on the 64-bit targets the repository builds for. -/
def usizeMax : Nat := 2 ^ 64 - 1

/-- Rust `str::parse` for an unsigned integer type with maximum `maxVal`:
an optional leading `+`, then digits, rejecting overflow. -/
def parseUnsignedRust (maxVal : Nat) (cs0 : List Char) : Option Nat :=
  let cs := match cs0 with
            | '+' :: rest => rest
            | _ => cs0
  match parseNatDigits cs with
  | none => none
  | some v => if v ≤ maxVal then some v else none

/-- Rust `str::parse` for a signed `w`-bit integer type: optional sign,
digits, range `[-2^(w-1), 2^(w-1))`. -/
def parseSignedRust (w : Nat) (cs0 : List Char) : Option Int :=
  match cs0 with
  | '+' :: rest =>
    match parseNatDigits rest with
    | none => none
    | some v => if (v : Int) < 2 ^ (w - 1) then some (v : Int) else none
  | '-' :: rest =>
    match parseNatDigits rest with
    | none => none
    | some v => if (v : Int) ≤ 2 ^ (w - 1) then some (-(v : Int)) else none
  | _ =>
    match parseNatDigits cs0 with
    | none => none
    | some v => if (v : Int) < 2 ^ (w - 1) then some (v : Int) else none

/-- `reg()` token shape (src/assembler.rs:533): `R<decimal>`. -/
def regTok (tok : String) : Option Nat :=
  let cs := tok.data
  if cs.length < 2 then none
  else
    match cs with
    | [] => none
    | c :: rest => if c = 'R' then parseUnsignedRust usizeMax rest else none

/-- The type-name loop of `immed()` (src/assembler.rs:606): split the token
at the `$`.  Running out of characters first is the `int[0]` index panic. -/
def spanTilDollar : List Char → Option (List Char × List Char)
  | [] => none
  | c :: cs =>
    if c = '$' then some ([], c :: cs)
    else
      match spanTilDollar cs with
      | none => none
      | some (pre, rest) => some (c :: pre, rest)

/-- Apply the leading minus of an immediate literal (src/assembler.rs:630):
negating the parsed magnitude; negating the minimum value is the Rust `-i`
overflow panic. -/
def applyNeg (w : Nat) (isNeg : Bool) (v : Int) : Option Int :=
  if isNeg then (if v = -(2 ^ (w - 1)) then none else some (-v)) else some v

/-- The kind dispatch at the end of `immed()` (src/assembler.rs:624). -/
def immedKind (F : FloatOps) (isNeg : Bool) (intType : String) (int4 : List Char) :
    Option Immediate :=
  if intType = "u8" then (parseUnsignedRust 255 int4).map .U8
  else if intType = "u16" then (parseUnsignedRust 65535 int4).map .U16
  else if intType = "u32" then (parseUnsignedRust 4294967295 int4).map .U32
  else if intType = "u64" then (parseUnsignedRust 18446744073709551615 int4).map .U64
  else if intType = "i8" then
    (parseSignedRust 8 int4).bind fun v => (applyNeg 8 isNeg v).map .I8
  else if intType = "i16" then
    (parseSignedRust 16 int4).bind fun v => (applyNeg 16 isNeg v).map .I16
  else if intType = "i32" then
    (parseSignedRust 32 int4).bind fun v => (applyNeg 32 isNeg v).map .I32
  else if intType = "i64" then
    (parseSignedRust 64 int4).bind fun v => (applyNeg 64 isNeg v).map .I64
  else if intType = "f32" then
    (F.parseF32 (String.mk int4)).map fun b => .F32 (if isNeg then F.negF32 b else b)
  else if intType = "f64" then
    (F.parseF64 (String.mk int4)).map fun b => .F64 (if isNeg then F.negF64 b else b)
  else none

/-- `immed()` (src/assembler.rs:574): `[-]<kind>$<digits>`; a minus on an
unsigned kind is rejected; float literal parsing goes through the
uninterpreted `FloatOps`. -/
def immedTok (F : FloatOps) (tok : String) : Option Immediate :=
  let int0 := tok.data
  if int0.length < 4 then none
  else
    let isNeg := int0.head? = some '-'
    let int1 := if isNeg then int0.tail else int0
    match int1 with
    | [] => none
    | t :: int2 =>
      if t = 'i' ∨ t = 'u' ∨ t = 'f' then
        if t = 'u' ∧ isNeg then none
        else
          match spanTilDollar int2 with
          | none => none
          | some (tyRest, int3) =>
            match int3 with
            | [] => none
            | _ :: int4 => immedKind F isNeg (String.mk (t :: tyRest)) int4
      else none

/-- Append one byte to the output (`machine_c.push`). -/
def pushByte (s : AsmState) (b : Nat) : AsmState :=
  { s with machine_c := s.machine_c ++ [b] }

/-- `psh_encoded_immed` (src/assembler.rs:470): append tag + payload and
advance `bit` by their count (1, 2, 3, 5 or 9 per variant — exactly the
encoded length). -/
def pshEncodedImmed (s : AsmState) (immed : Immediate) : AsmState :=
  { s with bit := s.bit + (encodeImmed immed).length,
           machine_c := s.machine_c ++ encodeImmed immed }

/-- `reg()` with its `bit += 1` side effect; the caller panics on a
malformed register token, so the parse failure folds into `none`. -/
def regOp (s : AsmState) : Option (AsmState × Nat) :=
  match rdTilWs s with
  | none => none
  | some (s1, tok) =>
    match regTok tok with
    | none => none
    | some r => some ({ s1 with bit := s1.bit + 1 }, r)

/-- `addr()` with its `bit += 1` side effect. -/
def addrOp (s : AsmState) : Option (AsmState × Nat) :=
  match rdTilWs s with
  | none => none
  | some (s1, tok) =>
    match parseUnsignedRust usizeMax tok.data with
    | none => none
    | some a => some ({ s1 with bit := s1.bit + 1 }, a)

/-- `immed()` as an operand reader (it does not touch `bit`). -/
def immedOp (F : FloatOps) (s : AsmState) : Option (AsmState × Immediate) :=
  match rdTilWs s with
  | none => none
  | some (s1, tok) =>
    match immedTok F tok with
    | none => none
    | some v => some (s1, v)

/-- `lbl()` (src/assembler.rs:463): read the label name, advance `bit` past
the placeholder address byte (writing nothing), and record `(bit, name)`. -/
def lblOp (s : AsmState) : Option AsmState :=
  match rdTilWs s with
  | none => none
  | some (s1, name) =>
    some { s1 with bit := s1.bit + 1,
                   lbl_replaces := s1.lbl_replaces ++ [(s1.bit + 1, name)] }

/-- An opcode byte followed by one raw-address operand byte (`int`, the
`..R` jumps, `str`, `ld`). -/
def oneAddrInstr (s : AsmState) (opc : Nat) : Option AsmState :=
  let s0 := pushByte s opc
  match addrOp s0 with
  | none => none
  | some (s1, a) => some (pushByte s1 (a % 256))

/-- An opcode byte followed by one register operand byte. -/
def oneRegInstr (s : AsmState) (opc : Nat) : Option AsmState :=
  let s0 := pushByte s opc
  match regOp s0 with
  | none => none
  | some (s1, r) => some (pushByte s1 (r % 256))

/-- An opcode byte followed by two register operand bytes (both read before
either is written, as in the source). -/
def twoRegInstr (s : AsmState) (opc : Nat) : Option AsmState :=
  let s0 := pushByte s opc
  match regOp s0 with
  | none => none
  | some (s1, ra) =>
    match regOp s1 with
    | none => none
    | some (s2, rb) => some (pushByte (pushByte s2 (ra % 256)) (rb % 256))

/-- A symbolic jump: opcode byte plus a deferred label patch. -/
def lblJmpInstr (s : AsmState) (opc : Nat) : Option AsmState :=
  lblOp (pushByte s opc)

/-- PUSH: opcode, then an encoded immediate. -/
def pushImmedInstr (F : FloatOps) (s : AsmState) (opc : Nat) : Option AsmState :=
  let s0 := pushByte s opc
  match immedOp F s0 with
  | none => none
  | some (s1, v) => some (pshEncodedImmed s1 v)

/-- LDI: opcode, register byte, encoded immediate. -/
def ldiInstr (F : FloatOps) (s : AsmState) : Option AsmState :=
  let s0 := pushByte s 6
  match regOp s0 with
  | none => none
  | some (s1, r) =>
    let s2 := pushByte s1 (r % 256)
    match immedOp F s2 with
    | none => none
    | some (s3, v) => some (pshEncodedImmed s3 v)

/-- SHR/SHL: opcode, register byte, encoded immediate. -/
def shiftInstr (F : FloatOps) (s : AsmState) (opc : Nat) : Option AsmState :=
  let s0 := pushByte s opc
  match regOp s0 with
  | none => none
  | some (s1, r) =>
    let s2 := pushByte s1 (r % 256)
    match immedOp F s2 with
    | none => none
    | some (s3, v) => some (pshEncodedImmed s3 v)

/-- The opcode dispatch of `assemble_instr` (the `match opcode.as_str()` of
src/assembler.rs:96), applied after the `bit += 1` for the opcode byte. -/
def opcodeDispatch (F : FloatOps) (opcode : String) (s2 : AsmState) : Option AsmState :=
  if opcode = "_" then some (pushByte s2 0)
  else if opcode = "hlt" then some (pushByte s2 1)
  else if opcode = "int" then oneAddrInstr s2 2
  else if opcode = "$" then pushImmedInstr F s2 3
  else if opcode = "$$" then oneRegInstr s2 4
  else if opcode = "%" then oneRegInstr s2 5
  else if opcode = "@" then ldiInstr F s2
  else if opcode = ":" then twoRegInstr s2 7
  else if opcode = "//" then lblJmpInstr s2 8
  else if opcode = "/=" then lblJmpInstr s2 9
  else if opcode = "/!" then lblJmpInstr s2 10
  else if opcode = "/>" then lblJmpInstr s2 11
  else if opcode = "/<" then lblJmpInstr s2 12
  else if opcode = "//R" then oneAddrInstr s2 8
  else if opcode = "/=R" then oneAddrInstr s2 9
  else if opcode = "/!R" then oneAddrInstr s2 10
  else if opcode = "/>R" then oneAddrInstr s2 11
  else if opcode = "/<R" then oneAddrInstr s2 12
  else if opcode = "=" then twoRegInstr s2 13
  else if opcode = "+" then twoRegInstr s2 14
  else if opcode = "-" then twoRegInstr s2 15
  else if opcode = "*" then twoRegInstr s2 16
  else if opcode = "/" then twoRegInstr s2 17
  else if opcode = "&" then twoRegInstr s2 18
  else if opcode = "|" then twoRegInstr s2 19
  else if opcode = "^" then twoRegInstr s2 20
  else if opcode = ">" then shiftInstr F s2 21
  else if opcode = "<" then shiftInstr F s2 22
  else if opcode = "str" then oneAddrInstr s2 23
  else if opcode = "strR" then oneRegInstr s2 24
  else if opcode = "ld" then oneAddrInstr s2 25
  else if opcode = "ldR" then oneRegInstr s2 26
  else none

/-- `assemble_instr` (src/assembler.rs:83): a label declaration records the
current `bit`; otherwise read the opcode token, `bit += 1`, and dispatch.
An unknown opcode is the fatal "invalid opcode" panic. -/
def assembleInstr (F : FloatOps) (s : AsmState) : Option AsmState :=
  if s.ch = '.' then
    match adv s with
    | none => none
    | some s1 =>
      match rdTilWs s1 with
      | none => none
      | some (s2, name) => some { s2 with lbls := (name, s2.bit) :: s2.lbls }
  else
    match rdTilWs s with
    | none => none
    | some (s1, opcode) => opcodeDispatch F opcode { s1 with bit := s1.bit + 1 }

/-- `HashMap` lookup over the insertion-ordered model (later inserts are
prepended, so the first match is the latest binding, as overwrite). -/
def lookupLbl : List (String × Nat) → String → Option Nat
  | [], _ => none
  | (k, v) :: rest, name => if k = name then some v else lookupLbl rest name

/-- The result of the emit loop: finished, a fatal parse error, or fuel
exhausted (used only to state that exhaustion cannot happen). -/
inductive AsmOut where
  | ok : AsmState → AsmOut
  | err : AsmOut
  | more : AsmOut

/-- The emit loop of `assemble` (src/assembler.rs:66): one instruction per
iteration while `ch` is not NUL. -/
def asmLoop (F : FloatOps) : Nat → AsmState → AsmOut
  | fuel, s =>
    if s.ch = '\x00' then .ok s
    else
      match fuel with
      | 0 => .more
      | f + 1 =>
        match assembleInstr F s with
        | none => .err
        | some s2 => asmLoop F f s2

/-- One step of the patch pass (src/assembler.rs:70): look the label up
(unknown labels are fatal) and insert its position byte at `offset - 1`
(`Vec::insert` panics past the end). -/
def patchOne (mc : List Nat) (lbls : List (String × Nat)) (entry : Nat × String) :
    Option (List Nat) :=
  match lookupLbl lbls entry.2 with
  | none => none
  | some bitPos =>
    if entry.1 - 1 ≤ mc.length then some (mc.insertIdx (entry.1 - 1) (bitPos % 256))
    else none

/-- The patch pass, in recording order. -/
def patchAll (mc : List Nat) (lbls : List (String × Nat)) :
    List (Nat × String) → Option (List Nat)
  | [] => some mc
  | e :: rest =>
    match patchOne mc lbls e with
    | none => none
    | some mc2 => patchAll mc2 lbls rest

/-- The tail of `assemble`: patch, then append the trailing HLT byte. -/
def asmFinish (s : AsmState) : Option (List Nat) :=
  match patchAll s.machine_c s.lbls s.lbl_replaces with
  | none => none
  | some mc => some (mc ++ [1])

/-- `assemble` (src/assembler.rs:65) over a NUL-terminated source. -/
def assemble (F : FloatOps) (fuel : Nat) (src : List Char) : Option (List Nat) :=
  match asmLoop F fuel (asmInit src) with
  | .ok s => asmFinish s
  | _ => none

/-- Progress measure for the assembler loops: the source is unchanged and
the cursor moved monotonically, staying inside the source whenever it
moved. -/
def Prog (s s2 : AsmState) : Prop :=
  s2.src = s.src ∧ s.i ≤ s2.i ∧ (s2.i = s.i ∨ s2.i < s.src.length)

theorem prog_refl (s : AsmState) : Prog s s := ⟨rfl, Nat.le_refl _, Or.inl rfl⟩

theorem prog_trans {s1 s2 s3 : AsmState} (h1 : Prog s1 s2) (h2 : Prog s2 s3) : Prog s1 s3 := by
  obtain ⟨e1, l1, d1⟩ := h1
  obtain ⟨e2, l2, d2⟩ := h2
  refine ⟨e2.trans e1, l1.trans l2, ?_⟩
  rcases d2 with d2 | d2
  · rw [d2]; exact d1
  · right; rw [e1] at d2; exact d2

theorem adv_prog {s s2 : AsmState} (h : adv s = some s2) : Prog s s2 := by
  rw [adv] at h
  split at h
  · cases h; exact prog_refl _
  · split at h
    · exact Option.noConfusion h
    · next c hget =>
      cases h
      have hlt : s.i + 1 < s.src.length := (List.get?_eq_some.mp hget).1
      exact ⟨rfl, Nat.le_succ _, Or.inr hlt⟩

theorem adv_strict {s s2 : AsmState} (hch : ¬ s.ch = '\x00') (h : adv s = some s2) :
    s.i < s2.i := by
  rw [adv, if_neg hch] at h
  split at h
  · exact Option.noConfusion h
  · cases h; exact Nat.lt_succ_self _

theorem rdLoop1_prog : ∀ fuel (s : AsmState) buf s2 buf2,
    rdLoop1 fuel s buf = some (s2, buf2) → Prog s s2 := by
  intro fuel
  induction fuel with
  | zero =>
    intro s buf s2 buf2 h
    rw [rdLoop1] at h
    split at h
    · cases h; exact prog_refl _
    · exact Option.noConfusion h
  | succ f ih =>
    intro s buf s2 buf2 h
    rw [rdLoop1] at h
    split at h
    · cases h; exact prog_refl _
    · split at h
      · exact Option.noConfusion h
      · next s3 hadv =>
        exact prog_trans (adv_prog hadv) (ih _ _ _ _ h)

theorem rdLoop1_stop {fuel : Nat} {s : AsmState} {buf : String}
    (hstop : isStop1 s.ch = true) : rdLoop1 fuel s buf = some (s, buf) := by
  cases fuel <;> rw [rdLoop1, if_pos hstop]

theorem rdLoop1_strict : ∀ fuel (s : AsmState) buf s2 buf2, ¬ isStop1 s.ch = true →
    rdLoop1 fuel s buf = some (s2, buf2) → s.i < s2.i := by
  intro fuel s buf s2 buf2 hstop h
  cases fuel with
  | zero =>
    rw [rdLoop1, if_neg hstop] at h
    exact Option.noConfusion h
  | succ f =>
    rw [rdLoop1, if_neg hstop] at h
    split at h
    · exact Option.noConfusion h
    · next s3 hadv =>
      have hch : ¬ s.ch = '\x00' := by
        intro heq
        exact hstop (by simp [isStop1, heq])
      have h1 := adv_strict hch hadv
      have h2 := (rdLoop1_prog f s3 _ s2 buf2 h).2.1
      omega

theorem rdLoop2_prog : ∀ fuel (s : AsmState) s2,
    rdLoop2 fuel s = some s2 → Prog s s2 := by
  intro fuel
  induction fuel with
  | zero =>
    intro s s2 h
    rw [rdLoop2] at h
    split at h
    · exact Option.noConfusion h
    · cases h; exact prog_refl _
  | succ f ih =>
    intro s s2 h
    rw [rdLoop2] at h
    split at h
    · split at h
      · exact Option.noConfusion h
      · next s3 hadv =>
        exact prog_trans (adv_prog hadv) (ih _ _ h)
    · cases h; exact prog_refl _

theorem rdLoop2_strict : ∀ fuel (s : AsmState) s2, isWs s.ch = true →
    rdLoop2 fuel s = some s2 → s.i < s2.i := by
  intro fuel s s2 hws h
  cases fuel with
  | zero =>
    rw [rdLoop2, if_pos hws] at h
    exact Option.noConfusion h
  | succ f =>
    rw [rdLoop2, if_pos hws] at h
    split at h
    · exact Option.noConfusion h
    · next s3 hadv =>
      have hch : ¬ s.ch = '\x00' := by
        intro heq
        rw [heq] at hws
        simp [isWs] at hws
      have h1 := adv_strict hch hadv
      have h2 := (rdLoop2_prog f s3 s2 h).2.1
      omega

theorem rdTilWs_prog {s s2 : AsmState} {tok : String} (h : rdTilWs s = some (s2, tok)) :
    Prog s s2 := by
  rw [rdTilWs] at h
  split at h
  · exact Option.noConfusion h
  · next s1 buf h1 =>
    split at h
    · exact Option.noConfusion h
    · next s3 h2 =>
      cases h
      exact prog_trans (rdLoop1_prog _ _ _ _ _ h1) (rdLoop2_prog _ _ _ h2)

theorem rdTilWs_strict {s s2 : AsmState} {tok : String} (hch : ¬ s.ch = '\x00')
    (h : rdTilWs s = some (s2, tok)) : s.i < s2.i := by
  by_cases hstop : isStop1 s.ch = true
  · have hws : isWs s.ch = true := by
      simp only [isStop1, Bool.or_eq_true] at hstop
      rcases hstop with (((h0 | h0) | h0) | h0) | h0
      · exact absurd (of_decide_eq_true h0) hch
      all_goals (have he := of_decide_eq_true h0; simp [isWs, he])
    rw [rdTilWs] at h
    split at h
    · exact Option.noConfusion h
    · next s1 buf h1 =>
      split at h
      · exact Option.noConfusion h
      · next s3 h2 =>
        cases h
        rw [rdLoop1_stop hstop] at h1
        cases h1
        exact rdLoop2_strict _ _ _ hws h2
  · rw [rdTilWs] at h
    split at h
    · exact Option.noConfusion h
    · next s1 buf h1 =>
      split at h
      · exact Option.noConfusion h
      · next s3 h2 =>
        cases h
        have ha := rdLoop1_strict _ _ _ _ _ hstop h1
        have hb := (rdLoop2_prog _ _ _ h2).2.1
        omega

theorem pushByte_prog (s : AsmState) (b : Nat) : Prog s (pushByte s b) :=
  ⟨rfl, Nat.le_refl _, Or.inl rfl⟩

theorem pshEncodedImmed_prog (s : AsmState) (v : Immediate) : Prog s (pshEncodedImmed s v) :=
  ⟨rfl, Nat.le_refl _, Or.inl rfl⟩

theorem regOp_prog {s s2 : AsmState} {r : Nat} (h : regOp s = some (s2, r)) : Prog s s2 := by
  rw [regOp] at h
  split at h
  · exact Option.noConfusion h
  · next s1 tok h1 =>
    split at h
    · exact Option.noConfusion h
    · cases h
      have p := rdTilWs_prog h1
      exact ⟨p.1, p.2.1, p.2.2⟩

theorem addrOp_prog {s s2 : AsmState} {a : Nat} (h : addrOp s = some (s2, a)) : Prog s s2 := by
  rw [addrOp] at h
  split at h
  · exact Option.noConfusion h
  · next s1 tok h1 =>
    split at h
    · exact Option.noConfusion h
    · cases h
      have p := rdTilWs_prog h1
      exact ⟨p.1, p.2.1, p.2.2⟩

theorem immedOp_prog {F : FloatOps} {s s2 : AsmState} {v : Immediate}
    (h : immedOp F s = some (s2, v)) : Prog s s2 := by
  rw [immedOp] at h
  split at h
  · exact Option.noConfusion h
  · next s1 tok h1 =>
    split at h
    · exact Option.noConfusion h
    · cases h
      have p := rdTilWs_prog h1
      exact ⟨p.1, p.2.1, p.2.2⟩

theorem lblOp_prog {s s2 : AsmState} (h : lblOp s = some s2) : Prog s s2 := by
  rw [lblOp] at h
  split at h
  · exact Option.noConfusion h
  · next s1 name h1 =>
    cases h
    have p := rdTilWs_prog h1
    exact ⟨p.1, p.2.1, p.2.2⟩

theorem oneAddrInstr_prog {s s2 : AsmState} {opc : Nat} (h : oneAddrInstr s opc = some s2) :
    Prog s s2 := by
  simp only [oneAddrInstr] at h
  split at h
  · exact Option.noConfusion h
  · next s1 a h1 =>
    cases h
    exact prog_trans (pushByte_prog s opc) (prog_trans (addrOp_prog h1) (pushByte_prog _ _))

theorem oneRegInstr_prog {s s2 : AsmState} {opc : Nat} (h : oneRegInstr s opc = some s2) :
    Prog s s2 := by
  simp only [oneRegInstr] at h
  split at h
  · exact Option.noConfusion h
  · next s1 r h1 =>
    cases h
    exact prog_trans (pushByte_prog s opc) (prog_trans (regOp_prog h1) (pushByte_prog _ _))

theorem twoRegInstr_prog {s s2 : AsmState} {opc : Nat} (h : twoRegInstr s opc = some s2) :
    Prog s s2 := by
  simp only [twoRegInstr] at h
  split at h
  · exact Option.noConfusion h
  · next s1 ra h1 =>
    split at h
    · exact Option.noConfusion h
    · next s3 rb h2 =>
      cases h
      exact prog_trans (pushByte_prog s opc)
        (prog_trans (regOp_prog h1)
          (prog_trans (regOp_prog h2) (prog_trans (pushByte_prog _ _) (pushByte_prog _ _))))

theorem lblJmpInstr_prog {s s2 : AsmState} {opc : Nat} (h : lblJmpInstr s opc = some s2) :
    Prog s s2 := by
  rw [lblJmpInstr] at h
  exact prog_trans (pushByte_prog s opc) (lblOp_prog h)

theorem pushImmedInstr_prog {F : FloatOps} {s s2 : AsmState} {opc : Nat}
    (h : pushImmedInstr F s opc = some s2) : Prog s s2 := by
  simp only [pushImmedInstr] at h
  split at h
  · exact Option.noConfusion h
  · next s1 v h1 =>
    cases h
    exact prog_trans (pushByte_prog s opc) (prog_trans (immedOp_prog h1) (pshEncodedImmed_prog _ _))

theorem ldiInstr_prog {F : FloatOps} {s s2 : AsmState} (h : ldiInstr F s = some s2) :
    Prog s s2 := by
  simp only [ldiInstr] at h
  split at h
  · exact Option.noConfusion h
  · next s1 r h1 =>
    split at h
    · exact Option.noConfusion h
    · next s3 v h2 =>
      cases h
      exact prog_trans (pushByte_prog s 6)
        (prog_trans (regOp_prog h1)
          (prog_trans (pushByte_prog _ _)
            (prog_trans (immedOp_prog h2) (pshEncodedImmed_prog _ _))))

theorem shiftInstr_prog {F : FloatOps} {s s2 : AsmState} {opc : Nat}
    (h : shiftInstr F s opc = some s2) : Prog s s2 := by
  simp only [shiftInstr] at h
  split at h
  · exact Option.noConfusion h
  · next s1 r h1 =>
    split at h
    · exact Option.noConfusion h
    · next s3 v h2 =>
      cases h
      exact prog_trans (pushByte_prog s opc)
        (prog_trans (regOp_prog h1)
          (prog_trans (pushByte_prog _ _)
            (prog_trans (immedOp_prog h2) (pshEncodedImmed_prog _ _))))

theorem opcodeDispatch_prog {F : FloatOps} {opcode : String} {s s2 : AsmState}
    (h : opcodeDispatch F opcode s = some s2) : Prog s s2 := by
  rw [opcodeDispatch] at h
  by_cases hc1 : opcode = "_"
  · rw [if_pos hc1] at h; (cases h; exact pushByte_prog _ _)
  rw [if_neg hc1] at h
  by_cases hc2 : opcode = "hlt"
  · rw [if_pos hc2] at h; (cases h; exact pushByte_prog _ _)
  rw [if_neg hc2] at h
  by_cases hc3 : opcode = "int"
  · rw [if_pos hc3] at h; exact oneAddrInstr_prog h
  rw [if_neg hc3] at h
  by_cases hc4 : opcode = "$"
  · rw [if_pos hc4] at h; exact pushImmedInstr_prog h
  rw [if_neg hc4] at h
  by_cases hc5 : opcode = "$$"
  · rw [if_pos hc5] at h; exact oneRegInstr_prog h
  rw [if_neg hc5] at h
  by_cases hc6 : opcode = "%"
  · rw [if_pos hc6] at h; exact oneRegInstr_prog h
  rw [if_neg hc6] at h
  by_cases hc7 : opcode = "@"
  · rw [if_pos hc7] at h; exact ldiInstr_prog h
  rw [if_neg hc7] at h
  by_cases hc8 : opcode = ":"
  · rw [if_pos hc8] at h; exact twoRegInstr_prog h
  rw [if_neg hc8] at h
  by_cases hc9 : opcode = "//"
  · rw [if_pos hc9] at h; exact lblJmpInstr_prog h
  rw [if_neg hc9] at h
  by_cases hc10 : opcode = "/="
  · rw [if_pos hc10] at h; exact lblJmpInstr_prog h
  rw [if_neg hc10] at h
  by_cases hc11 : opcode = "/!"
  · rw [if_pos hc11] at h; exact lblJmpInstr_prog h
  rw [if_neg hc11] at h
  by_cases hc12 : opcode = "/>"
  · rw [if_pos hc12] at h; exact lblJmpInstr_prog h
  rw [if_neg hc12] at h
  by_cases hc13 : opcode = "/<"
  · rw [if_pos hc13] at h; exact lblJmpInstr_prog h
  rw [if_neg hc13] at h
  by_cases hc14 : opcode = "//R"
  · rw [if_pos hc14] at h; exact oneAddrInstr_prog h
  rw [if_neg hc14] at h
  by_cases hc15 : opcode = "/=R"
  · rw [if_pos hc15] at h; exact oneAddrInstr_prog h
  rw [if_neg hc15] at h
  by_cases hc16 : opcode = "/!R"
  · rw [if_pos hc16] at h; exact oneAddrInstr_prog h
  rw [if_neg hc16] at h
  by_cases hc17 : opcode = "/>R"
  · rw [if_pos hc17] at h; exact oneAddrInstr_prog h
  rw [if_neg hc17] at h
  by_cases hc18 : opcode = "/<R"
  · rw [if_pos hc18] at h; exact oneAddrInstr_prog h
  rw [if_neg hc18] at h
  by_cases hc19 : opcode = "="
  · rw [if_pos hc19] at h; exact twoRegInstr_prog h
  rw [if_neg hc19] at h
  by_cases hc20 : opcode = "+"
  · rw [if_pos hc20] at h; exact twoRegInstr_prog h
  rw [if_neg hc20] at h
  by_cases hc21 : opcode = "-"
  · rw [if_pos hc21] at h; exact twoRegInstr_prog h
  rw [if_neg hc21] at h
  by_cases hc22 : opcode = "*"
  · rw [if_pos hc22] at h; exact twoRegInstr_prog h
  rw [if_neg hc22] at h
  by_cases hc23 : opcode = "/"
  · rw [if_pos hc23] at h; exact twoRegInstr_prog h
  rw [if_neg hc23] at h
  by_cases hc24 : opcode = "&"
  · rw [if_pos hc24] at h; exact twoRegInstr_prog h
  rw [if_neg hc24] at h
  by_cases hc25 : opcode = "|"
  · rw [if_pos hc25] at h; exact twoRegInstr_prog h
  rw [if_neg hc25] at h
  by_cases hc26 : opcode = "^"
  · rw [if_pos hc26] at h; exact twoRegInstr_prog h
  rw [if_neg hc26] at h
  by_cases hc27 : opcode = ">"
  · rw [if_pos hc27] at h; exact shiftInstr_prog h
  rw [if_neg hc27] at h
  by_cases hc28 : opcode = "<"
  · rw [if_pos hc28] at h; exact shiftInstr_prog h
  rw [if_neg hc28] at h
  by_cases hc29 : opcode = "str"
  · rw [if_pos hc29] at h; exact oneAddrInstr_prog h
  rw [if_neg hc29] at h
  by_cases hc30 : opcode = "strR"
  · rw [if_pos hc30] at h; exact oneRegInstr_prog h
  rw [if_neg hc30] at h
  by_cases hc31 : opcode = "ld"
  · rw [if_pos hc31] at h; exact oneAddrInstr_prog h
  rw [if_neg hc31] at h
  by_cases hc32 : opcode = "ldR"
  · rw [if_pos hc32] at h; exact oneRegInstr_prog h
  rw [if_neg hc32] at h
  exact Option.noConfusion h

/-- Each `assemble_instr` on a non-NUL character strictly advances the
cursor (so the emit loop terminates on every input). -/
theorem assembleInstr_strict {F : FloatOps} {s s2 : AsmState} (hch : ¬ s.ch = '\x00')
    (h : assembleInstr F s = some s2) : Prog s s2 ∧ s.i < s2.i := by
  rw [assembleInstr] at h
  split at h
  · split at h
    · exact Option.noConfusion h
    · next s1 hadv =>
      split at h
      · exact Option.noConfusion h
      · next s3 name hrd =>
        cases h
        have p1 := adv_prog hadv
        have st1 := adv_strict hch hadv
        have p2 := rdTilWs_prog hrd
        refine ⟨prog_trans p1 (prog_trans p2 ⟨rfl, Nat.le_refl _, Or.inl rfl⟩), ?_⟩
        show s.i < s3.i
        have h3 : s1.i ≤ s3.i := p2.2.1
        omega
  · split at h
    · exact Option.noConfusion h
    · next s1 opcode hrd =>
      have st := rdTilWs_strict hch hrd
      have pr := rdTilWs_prog hrd
      have key := opcodeDispatch_prog h
      constructor
      · exact prog_trans pr (prog_trans ⟨rfl, Nat.le_refl _, Or.inl rfl⟩ key)
      · have k2 : s1.i ≤ s2.i := key.2.1
        omega

/-- The emit loop never exhausts `src.length + 1 - i` units of fuel: it
finishes (`ok`) or dies on a parse error (`err`). -/
theorem asmLoop_no_more (F : FloatOps) :
    ∀ fuel s, s.i ≤ s.src.length → s.src.length - s.i < fuel →
      asmLoop F fuel s ≠ .more := by
  intro fuel
  induction fuel with
  | zero =>
    intro s hle hfuel
    omega
  | succ f ih =>
    intro s hle hfuel
    rw [asmLoop]
    split
    · intro hcon
      exact AsmOut.noConfusion hcon
    · next hch =>
      split
      · intro hcon
        exact AsmOut.noConfusion hcon
      · next s2 hinstr =>
        obtain ⟨⟨hsrc, hmono, hdisj⟩, hstrict⟩ := assembleInstr_strict hch hinstr
        apply ih
        · rw [hsrc]
          omega
        · rw [hsrc]
          omega

theorem asmFinish_last (s : AsmState) (out : List Nat) (h : asmFinish s = some out) :
    out.getLast? = some 1 := by
  rw [asmFinish] at h
  split at h
  · exact Option.noConfusion h
  · cases h
    exact List.getLast?_concat _

/-- C8: on every NUL-terminated source the assembler terminates — the emit
loop, fueled by the source length, never comes back asking for more — and
whenever it succeeds (every token parsed, every label resolved) the
returned byte stream is non-empty and ends in the HLT opcode 1, which
`assemble` appends after the patch pass. -/
theorem assemble_terminates_hlt (F : FloatOps) (src : List Char) :
    asmLoop F (src.length + 1) (asmInit src) ≠ .more ∧
    ∀ out, assemble F (src.length + 1) src = some out →
      out ≠ [] ∧ out.getLast? = some 1 := by
  constructor
  · apply asmLoop_no_more
    · exact Nat.zero_le _
    · show src.length - 0 < src.length + 1
      omega
  · intro out hout
    rw [assemble] at hout
    split at hout
    · next s1 heq =>
      have hl := asmFinish_last _ _ hout
      refine ⟨?_, hl⟩
      intro hnil
      rw [hnil] at hl
      exact Option.noConfusion hl
    · exact Option.noConfusion hout

/-- The NUL-terminated source `"hlt"` for the C8 witness. -/
def srcHltW : List Char := ['h', 'l', 't', '\x00']

/-- Witness for C8: assembling `"hlt"` yields `[1, 1]`, ending in 1. -/
theorem assemble_terminates_hlt_witness :
    ([1, 1] : List Nat) ≠ [] ∧ ([1, 1] : List Nat).getLast? = some 1 :=
  (assemble_terminates_hlt trivFloatOps srcHltW).2 [1, 1] rfl
